import Mathlib

/-!
Shallow embedding of the meal-recommendation core of the Cookest service
(`src/services/preference.rs` and `src/services/meal_plan.rs`).

Rust `f64` values are modelled as rationals (`ℚ`); `rust_decimal::Decimal`
values likewise.  JSONB weight maps (`serde_json::Map<String, Value>` whose
values are always numbers written by `update_weight`) are modelled as
association lists `List (String × ℚ)` with replace-on-insert semantics.
Database reads appear as explicit parameters or as fields of a `Db` record
holding one user's rows; database writes thread the `Db` value.
-/

namespace Cookest

/-- Floor of a rational, computably: `x.num / x.den` with Euclidean integer
division (this is exactly `Rat.floor`, see `myFloor_eq`). -/
def myFloor (x : ℚ) : ℤ := x.num / (x.den : ℤ)

/-- Rust `f64::round`: round half away from zero (for `x ≥ 0` this is `⌊x + 1/2⌋`). -/
def rustRound (x : ℚ) : ℤ := if 0 ≤ x then myFloor (x + 1 / 2) else -myFloor (-x + 1 / 2)

/-- Model of `(x * 1000.0).round() / 1000.0` — round to 3 decimal places. -/
def round3 (x : ℚ) : ℚ := ((rustRound (x * 1000) : ℤ) : ℚ) / 1000

/-- Rust `f64::clamp(lo, hi)`: `lo` if `x < lo`, `hi` if `x > hi`, else `x`. -/
def clampQ (x lo hi : ℚ) : ℚ := if x < lo then lo else if hi < x then hi else x

/-- Rust `as i32`: float-to-int cast truncates toward zero. -/
def ratTrunc (q : ℚ) : ℤ := if 0 ≤ q then myFloor q else -myFloor (-q)

/-- Constant `LEARNING_RATE = 0.1`. -/
def LEARNING_RATE : ℚ := 1 / 10

/-- A JSONB weight map: association list, first binding of a key wins. -/
abbrev WeightMap := List (String × ℚ)

def wmGet (m : WeightMap) (key : String) : Option ℚ :=
  (m.find? (fun e => e.1 == key)).map (·.2)

/-- Model of `map.get(key).and_then(|v| v.as_f64()).unwrap_or(0.0)`. -/
def wmGetD (m : WeightMap) (key : String) : ℚ := (wmGet m key).getD 0

/-- Model of `serde_json::Map::insert`: replace the binding if the key is present,
append it otherwise. -/
def wmInsert : WeightMap → String → ℚ → WeightMap
  | [], key, v => [(key, v)]
  | (k, w) :: rest, key, v =>
    if k = key then (key, v) :: rest else (k, w) :: wmInsert rest key v

/-- Function `update_weight` (preference.rs): incremental gradient step, clamp to
`[-1, 1]`, round to 3 decimals, store. -/
def update_weight (m : WeightMap) (key : String) (signal : ℚ) : WeightMap :=
  let old := wmGetD m key
  let upd := old + LEARNING_RATE * (signal - old)
  let clamped := clampQ upd (-1) 1
  wmInsert m key (round3 clamped)

/-- Signals: `PreferenceSignal` (1–5 star rating, cooked, favourited, skipped). -/
inductive PreferenceSignal where
  | Rated (n : ℤ)
  | Cooked
  | Favourited
  | Skipped
deriving DecidableEq

/-- Model of `PreferenceSignal::value`: match on `Rated(5) … Rated(1)` with a
catch-all `Rated(_) => 0.0`, written as a cascade of equality tests. -/
def PreferenceSignal.value : PreferenceSignal → ℚ
  | .Rated n =>
    if n = 5 then 1
    else if n = 4 then 6 / 10
    else if n = 3 then 2 / 10
    else if n = 2 then -2 / 10
    else if n = 1 then -6 / 10
    else 0
  | .Cooked => 5 / 10
  | .Favourited => 8 / 10
  | .Skipped => -3 / 10

/-- The columns of `recipes` the core reads. -/
structure RecipeRow where
  id : ℤ
  cuisine : Option String
  category : Option String
  difficulty : Option String
  servings : ℤ
  total_time_min : Option ℤ
deriving DecidableEq

structure IngredientRow where
  id : ℤ
  name : String
deriving DecidableEq

structure RecipeIngredientRow where
  recipe_id : ℤ
  ingredient_id : ℤ
  quantity_grams : Option ℚ
deriving DecidableEq

structure NutritionRow where
  recipe_id : ℤ
  calories : Option ℚ
  protein_g : Option ℚ
  carbs_g : Option ℚ
  fat_g : Option ℚ
  fiber_g : Option ℚ
deriving DecidableEq

/-- One row of `user_preferences`. -/
structure PrefRow where
  cuisine_weights : WeightMap
  ingredient_weights : WeightMap
  macro_bias : WeightMap
  difficulty_weights : WeightMap
  preferred_time_min : ℤ
  interaction_count : ℤ
deriving DecidableEq

/-- The neutral record `get_or_create` bootstraps. -/
def initialPref : PrefRow where
  cuisine_weights := []
  ingredient_weights := []
  macro_bias := [("protein", 0), ("carbs", 0), ("fat", 0)]
  difficulty_weights := [("easy", 0), ("medium", 0), ("hard", 0)]
  preferred_time_min := 30
  interaction_count := 0

/-- The pure heart of `record_interaction`: given the loaded preference row,
recipe row, the recipe's ingredient rows and its nutrition row, produce the
updated preference row exactly as preference.rs persists it. -/
def record_interaction_core (pref : PrefRow) (recipe : RecipeRow)
    (ingredients : List IngredientRow) (nutrition : Option NutritionRow)
    (signal : PreferenceSignal) : PrefRow :=
  let signal_value := signal.value
  let cuisine_weights :=
    match recipe.cuisine with
    | some cuisine => update_weight pref.cuisine_weights cuisine signal_value
    | none => pref.cuisine_weights
  let difficulty_weights :=
    match recipe.difficulty with
    | some difficulty => update_weight pref.difficulty_weights difficulty signal_value
    | none => pref.difficulty_weights
  let ingredient_weights :=
    ingredients.foldl (fun m ing => update_weight m ing.name (signal_value * (1 / 2)))
      pref.ingredient_weights
  let macro_bias :=
    match nutrition with
    | some n =>
      let total_calories := n.calories.getD 0
      if 0 < total_calories then
        let tc := total_calories
        let protein := n.protein_g.getD 0
        let carbs := n.carbs_g.getD 0
        let fat := n.fat_g.getD 0
        let p_ratio := protein * 4 / tc
        let c_ratio := carbs * 4 / tc
        let f_ratio := fat * 9 / tc
        let bias_signal_p := if 0 < signal_value then p_ratio else -p_ratio
        let bias_signal_c := if 0 < signal_value then c_ratio else -c_ratio
        let bias_signal_f := if 0 < signal_value then f_ratio else -f_ratio
        let m1 := update_weight pref.macro_bias "protein" (bias_signal_p * |signal_value|)
        let m2 := update_weight m1 "carbs" (bias_signal_c * |signal_value|)
        update_weight m2 "fat" (bias_signal_f * |signal_value|)
      else pref.macro_bias
    | none => pref.macro_bias
  let preferred_time_min :=
    match recipe.total_time_min with
    | some time =>
      let count : ℚ := (pref.interaction_count : ℚ)
      let old : ℚ := (pref.preferred_time_min : ℚ)
      if 0 < signal_value then ratTrunc ((old * count + (time : ℚ)) / (count + 1))
      else pref.preferred_time_min
    | none => pref.preferred_time_min
  { cuisine_weights := cuisine_weights
    ingredient_weights := ingredient_weights
    macro_bias := macro_bias
    difficulty_weights := difficulty_weights
    preferred_time_min := preferred_time_min
    interaction_count := pref.interaction_count + 1 }

/-- The pure heart of `score_recipe_for_user`: accumulate matched components
(cuisine weight, difficulty weight, time fit, ingredient average), average
over the number of matched components (`0.0` if none), clamp to `[0, 1]`. -/
def score_recipe_core (pref : PrefRow) (recipe : RecipeRow)
    (recipe_ingredients : List RecipeIngredientRow)
    (ingredients : List IngredientRow) : ℚ :=
  let s0 : ℚ := 0
  let c0 : ℕ := 0
  let sc1 :=
    match recipe.cuisine with
    | some cuisine =>
      match wmGet pref.cuisine_weights cuisine with
      | some w => (s0 + w, c0 + 1)
      | none => (s0, c0)
    | none => (s0, c0)
  let sc2 :=
    match recipe.difficulty with
    | some difficulty =>
      match wmGet pref.difficulty_weights difficulty with
      | some w => (sc1.1 + w, sc1.2 + 1)
      | none => sc1
    | none => sc1
  let sc3 :=
    match recipe.total_time_min with
    | some total_time =>
      let diff : ℚ := ((|total_time - pref.preferred_time_min| : ℤ) : ℚ)
      let time_score := 1 - min (diff / 60) 1
      (sc2.1 + time_score, sc2.2 + 1)
    | none => sc2
  let sc4 :=
    if recipe_ingredients.isEmpty then sc3
    else
      let ing_score :=
        (ingredients.filterMap (fun ing => wmGet pref.ingredient_weights ing.name)).sum
          / ((max ingredients.length 1 : ℕ) : ℚ)
      (sc3.1 + ing_score, sc3.2 + 1)
  let raw := if 0 < sc4.2 then sc4.1 / (sc4.2 : ℚ) else 0
  clampQ raw 0 1

/-- Errors: `AppError` — only the variant the core raises matters here. -/
inductive AppError where
  | NotFound (what : String)
deriving DecidableEq

structure InventoryRow where
  ingredient_id : ℤ
  quantity : ℚ
  expiry_date : Option ℤ
deriving DecidableEq

structure HistoryRow where
  recipe_id : ℤ
  cooked_at : ℤ
deriving DecidableEq

structure FavoriteRow where
  recipe_id : ℤ
deriving DecidableEq

structure PlanRow where
  id : ℤ
  week_start : ℤ
deriving DecidableEq

structure SlotRow where
  meal_plan_id : ℤ
  recipe_id : ℤ
  day_of_week : ℤ
  meal_type : String
  is_completed : Bool
deriving DecidableEq

/-- One user's slice of the database (all tables the core touches; dates are
modelled as integer day numbers).  `next_plan_id` models the auto-increment
sequence behind `meal_plans.id`. -/
structure Db where
  pref : Option PrefRow
  recipes : List RecipeRow
  recipe_ingredients : List RecipeIngredientRow
  ingredients : List IngredientRow
  nutrition : List NutritionRow
  inventory : List InventoryRow
  history : List HistoryRow
  favorites : List FavoriteRow
  plans : List PlanRow
  slots : List SlotRow
  next_plan_id : ℤ
deriving DecidableEq

/-- Function `get_or_create`: return the user's preference row, inserting a fresh
neutral one when absent. -/
def get_or_create (db : Db) : PrefRow × Db :=
  match db.pref with
  | some p => (p, db)
  | none => (initialPref, { db with pref := some initialPref })

/-- The `recipe_ingredients` rows of one recipe. -/
def recipeIngredientsOf (db : Db) (recipe_id : ℤ) : List RecipeIngredientRow :=
  db.recipe_ingredients.filter (fun ri => ri.recipe_id == recipe_id)

/-- The `ingredients` rows whose id appears in the given recipe-ingredient
rows. -/
def ingredientsOf (db : Db) (ris : List RecipeIngredientRow) : List IngredientRow :=
  db.ingredients.filter (fun ing => (ris.map (·.ingredient_id)).contains ing.id)

/-- Function `score_recipe_for_user` with its state effects: `get_or_create` may
insert the preference row; a missing recipe row is a hard `NotFound`. -/
def score_recipe_for_user (db : Db) (recipe_id : ℤ) : Except AppError ℚ × Db :=
  let pdb := get_or_create db
  match pdb.2.recipes.find? (fun r => r.id == recipe_id) with
  | none => (.error (.NotFound "Recipe"), pdb.2)
  | some recipe =>
    let ris := recipeIngredientsOf pdb.2 recipe_id
    let ings := ingredientsOf pdb.2 ris
    (.ok (score_recipe_core pdb.1 recipe ris ings), pdb.2)

/-- Function `record_interaction` with its state effects. -/
def record_interaction (db : Db) (recipe_id : ℤ) (signal : PreferenceSignal) :
    Except AppError Db :=
  let pdb := get_or_create db
  match pdb.2.recipes.find? (fun r => r.id == recipe_id) with
  | none => .error (.NotFound "Recipe")
  | some recipe =>
    let ris := recipeIngredientsOf pdb.2 recipe_id
    let ings := ingredientsOf pdb.2 ris
    let nut := pdb.2.nutrition.find? (fun n => n.recipe_id == recipe_id)
    .ok { pdb.2 with pref := some (record_interaction_core pdb.1 recipe ings nut signal) }

/-! Meal plan service (`meal_plan.rs`) -/

/-- Constant `DAILY_CALORIES` (per person). -/
def DAILY_CALORIES : ℚ := 2000

/-- Constant `DAILY_PROTEIN_G` (per person). -/
def DAILY_PROTEIN_G : ℚ := 50

/-- Record `RecipeScore` — score plus the attributes the selector needs. -/
structure RecipeScore where
  recipe_id : ℤ
  total_score : ℚ
  cuisine : Option String
  category : Option String
  total_time_min : Option ℤ
deriving DecidableEq

/-- Function `fits_meal_type`: breakfast-tagged recipes fit only breakfast, desserts
fit nothing, everything else fits lunch and dinner. -/
def fits_meal_type (category : Option String) (meal_type : String) : Bool :=
  match category, meal_type with
  | some "breakfast", "breakfast" => true
  | some "breakfast", _ => false
  | some "dessert", _ => false
  | _, "lunch" => true
  | _, "dinner" => true
  | _, _ => true

/-- Ingredient ids the user holds in inventory. -/
def userIngredientIds (db : Db) : List ℤ := db.inventory.map (·.ingredient_id)

/-- Ingredient ids expiring within 7 days of `now`. -/
def expiringIds (db : Db) (now : ℤ) : List ℤ :=
  (db.inventory.filter (fun i =>
    match i.expiry_date with
    | some d => d ≤ now + 7
    | none => false)).map (·.ingredient_id)

/-- Recipe ids cooked within the last 14 days (`cooked_at ≥ now − 14`). -/
def recentRecipeIds (db : Db) (now : ℤ) : List ℤ :=
  (db.history.filter (fun h => now - 14 ≤ h.cooked_at)).map (·.recipe_id)

/-- The user's favourite recipe ids. -/
def favouriteIds (db : Db) : List ℤ := db.favorites.map (·.recipe_id)

/-- Score one candidate recipe, threading the database because the
`ml_preference` call may lazily create the preference row.  Mirrors the body
of the scoring loop in `generate_week_plan` (`weekly_calories` and
`weekly_protein` stay `0.0` throughout — the running deficit is declared but
never decremented). -/
def scoreCandidate (db : Db) (household_size : ℤ) (now : ℤ) (recipe : RecipeRow) :
    RecipeScore × Db :=
  let recipe_ing_ids := (recipeIngredientsOf db recipe.id).map (·.ingredient_id)
  let total_ings : ℕ := max recipe_ing_ids.length 1
  let owned_ings : ℕ := (recipe_ing_ids.filter (fun i => (userIngredientIds db).contains i)).length
  let ingredient_coverage : ℚ := (owned_ings : ℚ) / (total_ings : ℚ)
  let expiring_used : ℕ := (recipe_ing_ids.filter (fun i => (expiringIds db now).contains i)).length
  let expiry_urgency : ℚ := min ((expiring_used : ℚ) / (total_ings : ℚ)) 1
  let mlRes := score_recipe_for_user db recipe.id
  let ml_preference : ℚ :=
    match mlRes.1 with
    | .ok v => v
    | .error _ => 1 / 2
  let variety_bonus : ℚ :=
    if (recentRecipeIds db now).contains recipe.id then -3 / 10
    else if (favouriteIds db).contains recipe.id then 1 / 10
    else 0
  let weekly_calories : ℚ := 0
  let weekly_protein : ℚ := 0
  let nutrition_balance : ℚ :=
    match db.nutrition.find? (fun n => n.recipe_id == recipe.id) with
    | some n =>
      let scale : ℚ := (household_size : ℚ) / ((max recipe.servings 1 : ℤ) : ℚ)
      let cal := n.calories.getD 0 * scale
      let pro := n.protein_g.getD 0 * scale
      let cal_gap := max (DAILY_CALORIES * 7 - weekly_calories) 0
      let pro_gap := max (DAILY_PROTEIN_G * 7 - weekly_protein) 0
      let cal_score := min (cal / max cal_gap 1) 1
      let pro_score := min (pro / max pro_gap 1) 1
      (cal_score + pro_score) / 2
    | none => 1 / 2
  let total_score :=
    ingredient_coverage * (30 / 100) + expiry_urgency * (25 / 100)
      + ml_preference * (25 / 100) + nutrition_balance * (12 / 100)
      + variety_bonus * (8 / 100)
  (⟨recipe.id, total_score, recipe.cuisine, recipe.category, recipe.total_time_min⟩, mlRes.2)

/-- The scoring pass over all recipes (ordered by id ascending), skipping
recently-cooked ones before scoring. -/
def scoreAll (db : Db) (household_size : ℤ) (now : ℤ) : List RecipeScore × Db :=
  let all_recipes := db.recipes.mergeSort (fun a b => a.id ≤ b.id)
  all_recipes.foldl
    (fun acc recipe =>
      if (recentRecipeIds acc.2 now).contains recipe.id then acc
      else
        let r := scoreCandidate acc.2 household_size now recipe
        (acc.1 ++ [r.1], r.2))
    ([], db)

/-- Rust `Iterator::find`: scan forward, return the first element satisfying `p`
together with the iterator's remaining suffix; an unsuccessful scan exhausts
the iterator. -/
def findConsume (l : List RecipeScore) (p : RecipeScore → Bool) :
    Option RecipeScore × List RecipeScore :=
  match l with
  | [] => (none, [])
  | x :: xs => if p x then (some x, xs) else findConsume xs p

/-- The greedy selector's mutable state: the shared iterator over the
score-sorted list, the used-recipe set, the per-day lunch-cuisine map, and
the selected `(recipe, day, meal_type)` triples in selection order. -/
structure SelState where
  cursor : List RecipeScore
  used : List ℤ
  cuisines : List (ℕ × String)
  selected : List (RecipeScore × ℕ × String)
deriving DecidableEq

/-- Model of `used_cuisines_today.get(&day)` (insert overwrites, so the most recent
binding wins). -/
def lookupDay (m : List (ℕ × String)) (d : ℕ) : Option String :=
  (m.find? (fun e => e.1 == d)).map (·.2)

/-- The lunch filter: not yet used and fits lunch. -/
def lunchPred (used : List ℤ) (r : RecipeScore) : Bool :=
  !used.contains r.recipe_id && fits_meal_type r.category "lunch"

/-- The dinner filter: not yet used, fits dinner, and the cuisine differs
from the recorded lunch cuisine of the day. -/
def dinnerPred (used : List ℤ) (lunch_cuisine : Option String) (r : RecipeScore) : Bool :=
  !used.contains r.recipe_id && fits_meal_type r.category "dinner"
    && r.cuisine != lunch_cuisine

/-- One day of the greedy selection: a lunch scan, then a dinner scan on the
same iterator. -/
def assignDay (day : ℕ) (st : SelState) : SelState :=
  let lunchRes := findConsume st.cursor (lunchPred st.used)
  let st1 : SelState :=
    match lunchRes.1 with
    | some r =>
      { cursor := lunchRes.2
        used := r.recipe_id :: st.used
        cuisines :=
          match r.cuisine with
          | some cu => (day, cu) :: st.cuisines
          | none => st.cuisines
        selected := st.selected ++ [(r, day, "lunch")] }
    | none => { st with cursor := lunchRes.2 }
  let dinnerRes := findConsume st1.cursor (dinnerPred st1.used (lookupDay st1.cuisines day))
  match dinnerRes.1 with
  | some r =>
    { st1 with
      cursor := dinnerRes.2
      used := r.recipe_id :: st1.used
      selected := st1.selected ++ [(r, day, "dinner")] }
  | none => { st1 with cursor := dinnerRes.2 }

/-- The day loop `for day in 0u8..7`. -/
def runDays : List ℕ → SelState → SelState
  | [], st => st
  | d :: ds, st => runDays ds (assignDay d st)

/-- The whole greedy selection over the score-sorted candidate list. -/
def selectSlots (scored : List RecipeScore) : List (RecipeScore × ℕ × String) :=
  (runDays (List.range 7) ⟨scored, [], [], []⟩).selected

/-- Function `generate_week_plan`: score, sort descending, greedily select, then
replace the (user, week) plan wholesale.  Returns the saved plan, the slot
rows inserted for it, and the updated database. -/
def generate_week_plan (db : Db) (household_size : ℤ) (week_start : ℤ) (now : ℤ) :
    PlanRow × List SlotRow × Db :=
  let sdb := scoreAll db household_size now
  let scored := sdb.1.mergeSort (fun a b => b.total_score ≤ a.total_score)
  let selected := selectSlots scored
  let db1 := sdb.2
  let db2 :=
    match db1.plans.find? (fun p => p.week_start == week_start) with
    | some existing =>
      { db1 with
        slots := db1.slots.filter (fun s => !(s.meal_plan_id == existing.id))
        plans := db1.plans.filter (fun p => !(p.id == existing.id)) }
    | none => db1
  let plan : PlanRow := ⟨db2.next_plan_id, week_start⟩
  let new_slots : List SlotRow :=
    selected.map (fun e =>
      { meal_plan_id := plan.id
        recipe_id := e.1.recipe_id
        day_of_week := (e.2.1 : ℤ)
        meal_type := e.2.2
        is_completed := false })
  (plan, new_slots,
    { db2 with
      plans := db2.plans ++ [plan]
      slots := db2.slots ++ new_slots
      next_plan_id := db2.next_plan_id + 1 })

/-! Shopping list (`get_shopping_list`) -/

structure ShoppingEntry where
  ingredient_id : ℤ
  name : String
  needed_grams : ℚ
  have_grams : ℚ
  to_buy_grams : ℚ
  in_inventory : Bool
deriving DecidableEq

def lookupQ (l : List (ℤ × ℚ)) (k : ℤ) : Option ℚ :=
  (l.find? (fun e => e.1 == k)).map (·.2)

/-- Model of `*needed.entry(id).or_default() += qty`. -/
def bumpNeeded : List (ℤ × ℚ) → ℤ → ℚ → List (ℤ × ℚ)
  | [], k, q => [(k, q)]
  | (k', v) :: rest, k, q =>
    if k' = k then (k', v + q) :: rest else (k', v) :: bumpNeeded rest k q

/-- Lookup of the `ingredients` table name column. -/
def ingredientName (db : Db) (iid : ℤ) : Option String :=
  (db.ingredients.find? (fun i => i.id == iid)).map (·.name)

/-- The incomplete slots of a plan (`IsCompleted.eq(false)` filter). -/
def incompleteSlots (db : Db) (plan : PlanRow) : List SlotRow :=
  db.slots.filter (fun s => s.meal_plan_id == plan.id && s.is_completed == false)

/-- The `recipe_ingredients` rows referenced by the given recipe ids. -/
def requiredRows (db : Db) (recipe_ids : List ℤ) : List RecipeIngredientRow :=
  db.recipe_ingredients.filter (fun ri => recipe_ids.contains ri.recipe_id)

/-- One aggregation step: `if let Some(qty) = ri.quantity_grams { … += qty }`. -/
def neededStep (m : List (ℤ × ℚ)) (ri : RecipeIngredientRow) : List (ℤ × ℚ) :=
  match ri.quantity_grams with
  | some qty => bumpNeeded m ri.ingredient_id qty
  | none => m

/-- Aggregation of `quantity_grams` per ingredient over a list of
recipe-ingredient rows (rows with no gram quantity contribute nothing). -/
def neededOf (rows : List RecipeIngredientRow) : List (ℤ × ℚ) :=
  rows.foldl neededStep []

/-- The user's inventory as `(ingredient_id, quantity)` pairs. -/
def inventoryPairsOf (db : Db) : List (ℤ × ℚ) :=
  db.inventory.map (fun i => (i.ingredient_id, i.quantity))

/-- On-hand grams of one ingredient (`0` when absent from inventory). -/
def haveOf (db : Db) (iid : ℤ) : ℚ := (lookupQ (inventoryPairsOf db) iid).getD 0

/-- Construction of one shopping-list entry from an aggregated
`(ingredient_id, needed)` pair: emitted exactly when `needed > have`. -/
def shoppingEntryOf (db : Db) (kv : ℤ × ℚ) : Option ShoppingEntry :=
  let hv := haveOf db kv.1
  if hv < kv.2 then
    some { ingredient_id := kv.1
           name := (ingredientName db kv.1).getD ""
           needed_grams := kv.2
           have_grams := hv
           to_buy_grams := kv.2 - hv
           in_inventory := decide (0 < hv) }
  else none

/-- The shopping list of one plan: aggregate over its incomplete slots,
keep shortfalls, sort by name ascending. -/
def shoppingListFor (db : Db) (plan : PlanRow) : List ShoppingEntry :=
  let recipe_ids := (incompleteSlots db plan).map (·.recipe_id)
  let needed := neededOf (requiredRows db recipe_ids)
  (needed.filterMap (shoppingEntryOf db)).mergeSort (fun a b => a.name ≤ b.name)

/-- Function `get_shopping_list`: aggregate grams needed by the incomplete slots of
the current week's plan, subtract inventory, keep shortfalls, sort by name
(an empty list when the week has no plan). -/
def get_shopping_list (db : Db) (week_start : ℤ) : List ShoppingEntry :=
  match db.plans.find? (fun p => p.week_start == week_start) with
  | none => []
  | some plan => shoppingListFor db plan

/-- Declarative view of the aggregation: the gram contributions of one
ingredient across a list of recipe-ingredient rows. -/
def contribsL (rows : List RecipeIngredientRow) (iid : ℤ) : List ℚ :=
  rows.filterMap (fun ri => if ri.ingredient_id = iid then ri.quantity_grams else none)

/-! Declarative views of the scoring components, used to state what
`score_recipe_core` averages over. -/

/-- The cuisine component: present exactly when the recipe has a cuisine and
the user has a learned weight for it. -/
def cuisineComponent (pref : PrefRow) (recipe : RecipeRow) : Option ℚ :=
  recipe.cuisine.bind (fun c => wmGet pref.cuisine_weights c)

/-- The difficulty component: present exactly when the recipe has a
difficulty and the user has a learned weight for it. -/
def difficultyComponent (pref : PrefRow) (recipe : RecipeRow) : Option ℚ :=
  recipe.difficulty.bind (fun d => wmGet pref.difficulty_weights d)

/-- The time-fit component: present exactly when the recipe has a total
time. -/
def timeComponent (pref : PrefRow) (recipe : RecipeRow) : Option ℚ :=
  recipe.total_time_min.map
    (fun t => 1 - min (((|t - pref.preferred_time_min| : ℤ) : ℚ) / 60) 1)

/-- The ingredient component: present exactly when the recipe has ingredient
rows; its value is the sum of the known ingredient weights divided by the
number of fetched ingredient rows (ingredients without a learned weight
count in the denominator). -/
def ingredientComponent (pref : PrefRow) (recipe_ingredients : List RecipeIngredientRow)
    (ingredients : List IngredientRow) : Option ℚ :=
  if recipe_ingredients.isEmpty then none
  else some
    ((ingredients.filterMap (fun ing => wmGet pref.ingredient_weights ing.name)).sum
      / ((max ingredients.length 1 : ℕ) : ℚ))

/-- The list of matched components, in the order the code visits them. -/
def componentList (pref : PrefRow) (recipe : RecipeRow)
    (recipe_ingredients : List RecipeIngredientRow)
    (ingredients : List IngredientRow) : List ℚ :=
  (cuisineComponent pref recipe).toList ++ (difficultyComponent pref recipe).toList
    ++ (timeComponent pref recipe).toList
    ++ (ingredientComponent pref recipe_ingredients ingredients).toList

/-- Declarative scoring function per the amended reading of the spec: the
average of the matched components (0.0 when none matched) clamped to
`[0, 1]`. -/
def score_spec_amended (pref : PrefRow) (recipe : RecipeRow)
    (recipe_ingredients : List RecipeIngredientRow)
    (ingredients : List IngredientRow) : ℚ :=
  let L := componentList pref recipe recipe_ingredients ingredients
  clampQ (if L.isEmpty then 0 else L.sum / (L.length : ℚ)) 0 1

/-- What the original claim calls the ingredient component: the mean of the
known ingredient weights only (unknown ingredients absent from denominator). -/
def mean_known_ingredient_weights (pref : PrefRow) (ingredients : List IngredientRow) : ℚ :=
  let ws := ingredients.filterMap (fun ing => wmGet pref.ingredient_weights ing.name)
  ws.sum / (ws.length : ℚ)

/-- The lunch cuisine recorded for a day, recovered from the selection:
the cuisine of the day's lunch entry (none when there is no lunch entry or
the lunch recipe has no cuisine). -/
def dayLunchCuisine (sel : List (RecipeScore × ℕ × String)) (d : ℕ) : Option String :=
  match sel.find? (fun e => e.2.1 == d && e.2.2 == "lunch") with
  | some e => e.1.cuisine
  | none => none

/-! Invariants and interaction inputs. -/

/-- A stored weight is in `[-1, 1]` and is an exact multiple of `1/1000`. -/
def inRange3 (v : ℚ) : Prop := -1 ≤ v ∧ v ≤ 1 ∧ ∃ k : ℤ, v = (k : ℚ) / 1000

/-- Every value of a weight map is clamped and 3-decimal. -/
def wmInv (m : WeightMap) : Prop := ∀ e ∈ m, inRange3 e.2

/-- The C2 invariant over all four weight maps of a preference row. -/
def prefInv (p : PrefRow) : Prop :=
  wmInv p.cuisine_weights ∧ wmInv p.ingredient_weights ∧ wmInv p.macro_bias
    ∧ wmInv p.difficulty_weights

/-- One interaction: the recipe row, its ingredient rows, its nutrition row,
and the signal. -/
def InteractionInput : Type :=
  RecipeRow × List IngredientRow × Option NutritionRow × PreferenceSignal

/-- Application of one interaction to a preference row. -/
def applyInteraction (p : PrefRow) (i : InteractionInput) : PrefRow :=
  record_interaction_core p i.1 i.2.1 i.2.2.1 i.2.2.2

/-! Concrete rows used by counterexamples and witnesses. -/

/-- A recipe with a known cuisine and nothing else. -/
def recipeItalian : RecipeRow := ⟨1, some "italian", none, none, 1, none⟩

/-- One 5-star rating of `recipeItalian` (no ingredient rows, no nutrition). -/
def rate5Step (p : PrefRow) : PrefRow :=
  record_interaction_core p recipeItalian [] none (.Rated 5)

/-- The stored cuisine weight after `n` consecutive 5-star ratings starting
from a fresh preference row. -/
def cuisineWeightAfter (n : ℕ) : ℚ :=
  wmGetD ((rate5Step^[n]) initialPref).cuisine_weights "italian"

/-- A database with no rows at all and no preference record. -/
def dbEmpty : Db := ⟨none, [], [], [], [], [], [], [], [], [], 1⟩

/-- A recipe with no cuisine, no difficulty, no total time. -/
def recipeBare : RecipeRow := ⟨1, none, none, none, 1, none⟩

/-- A database whose only row is `recipeBare` and with no preference record. -/
def dbBare : Db := { dbEmpty with recipes := [recipeBare] }

/-- A preference row knowing one ingredient weight (`"a" ↦ 1.0`). -/
def pref4 : PrefRow := { initialPref with ingredient_weights := [("a", 1)] }

/-- Two ingredient rows of `recipeBare`: ids 1 and 2. -/
def ris4 : List RecipeIngredientRow := [⟨1, 1, none⟩, ⟨1, 2, none⟩]

/-- The two fetched ingredients: `"a"` (known weight) and `"b"` (unknown). -/
def ings4 : List IngredientRow := [⟨1, "a"⟩, ⟨2, "b"⟩]

/-- A recipe with cuisine, difficulty and total time, for the C10 witness. -/
def recipe10 : RecipeRow := ⟨1, some "thai", none, some "easy", 1, some 20⟩

/-! Arithmetic lemmas about the rounding primitives. -/

theorem myFloor_eq (x : ℚ) : myFloor x = ⌊x⌋ := (Rat.floor_def).symm

theorem rustRound_nonneg_eq (x : ℚ) (hx : 0 ≤ x) : rustRound x = ⌊x + 1 / 2⌋ := by
  unfold rustRound
  rw [if_pos hx, myFloor_eq]

theorem rustRound_eval (x : ℚ) (k : ℤ) (hx : 0 ≤ x)
    (h1 : (k : ℚ) ≤ x + 1 / 2) (h2 : x + 1 / 2 < (k : ℚ) + 1) : rustRound x = k := by
  rw [rustRound_nonneg_eq x hx]
  rw [Int.floor_eq_iff]
  exact ⟨h1, by push_cast; linarith⟩

theorem round3_eval (x : ℚ) (k : ℤ) (hx : 0 ≤ x)
    (h1 : (k : ℚ) ≤ x * 1000 + 1 / 2) (h2 : x * 1000 + 1 / 2 < (k : ℚ) + 1) :
    round3 x = (k : ℚ) / 1000 := by
  unfold round3
  rw [rustRound_eval (x * 1000) k (by nlinarith) h1 h2]

theorem le_rustRound (x : ℚ) (k : ℤ) (hx : 0 ≤ x) (h : (k : ℚ) ≤ x) : k ≤ rustRound x := by
  rw [rustRound_nonneg_eq x hx]
  exact Int.le_floor.mpr (by push_cast; linarith)

theorem rustRound_bounds (x : ℚ) (c : ℤ) (hc : 0 ≤ c)
    (h1 : -(c : ℚ) ≤ x) (h2 : x ≤ (c : ℚ)) : -c ≤ rustRound x ∧ rustRound x ≤ c := by
  by_cases hx : 0 ≤ x
  · rw [rustRound_nonneg_eq x hx]
    constructor
    · have h0 : (0 : ℤ) ≤ ⌊x + 1 / 2⌋ := Int.le_floor.mpr (by push_cast; linarith)
      omega
    · have : (⌊x + 1 / 2⌋ : ℤ) < c + 1 := Int.floor_lt.mpr (by push_cast; linarith)
      omega
  · push_neg at hx
    unfold rustRound
    rw [if_neg (not_le.mpr hx), myFloor_eq]
    constructor
    · have : (⌊-x + 1 / 2⌋ : ℤ) < c + 1 := Int.floor_lt.mpr (by push_cast; linarith)
      omega
    · have : (0 : ℤ) ≤ ⌊-x + 1 / 2⌋ := Int.le_floor.mpr (by push_cast; linarith)
      omega

theorem round3_bounds (x : ℚ) (h1 : -1 ≤ x) (h2 : x ≤ 1) :
    -1 ≤ round3 x ∧ round3 x ≤ 1 := by
  have hb := rustRound_bounds (x * 1000) 1000 (by norm_num)
    (by push_cast; linarith) (by push_cast; linarith)
  unfold round3
  constructor
  · rw [le_div_iff (by norm_num : (0 : ℚ) < 1000)]
    have : ((-1000 : ℤ) : ℚ) ≤ ((rustRound (x * 1000) : ℤ) : ℚ) := by exact_mod_cast hb.1
    push_cast at this
    linarith
  · rw [div_le_iff (by norm_num : (0 : ℚ) < 1000)]
    have : ((rustRound (x * 1000) : ℤ) : ℚ) ≤ ((1000 : ℤ) : ℚ) := by exact_mod_cast hb.2
    push_cast at this
    linarith

theorem round3_nonneg (x : ℚ) (hx : 0 ≤ x) : 0 ≤ round3 x := by
  unfold round3
  have h : (0 : ℤ) ≤ rustRound (x * 1000) := le_rustRound _ 0 (by nlinarith) (by push_cast; nlinarith)
  have : ((0 : ℤ) : ℚ) ≤ ((rustRound (x * 1000) : ℤ) : ℚ) := by exact_mod_cast h
  push_cast at this
  linarith

theorem round3_ge_of_le (w : ℚ) (k : ℤ) (x : ℚ) (hw : w = (k : ℚ) / 1000)
    (hx : 0 ≤ x) (h : w ≤ x) : w ≤ round3 x := by
  have hk : (k : ℚ) ≤ x * 1000 := by
    rw [hw] at h
    nlinarith
  have hr := le_rustRound (x * 1000) k (by nlinarith) hk
  have hr2 : (k : ℚ) ≤ ((rustRound (x * 1000) : ℤ) : ℚ) := by exact_mod_cast hr
  unfold round3
  rw [hw]
  linarith

theorem round3_threeDec (x : ℚ) : ∃ k : ℤ, round3 x = (k : ℚ) / 1000 :=
  ⟨rustRound (x * 1000), rfl⟩

theorem clampQ_mem (x lo hi : ℚ) (h : lo ≤ hi) :
    lo ≤ clampQ x lo hi ∧ clampQ x lo hi ≤ hi := by
  unfold clampQ
  split_ifs with h1 h2
  · exact ⟨le_refl _, h⟩
  · exact ⟨h, le_refl _⟩
  · exact ⟨le_of_not_lt h1, le_of_not_lt h2⟩

theorem clampQ_eq (x lo hi : ℚ) (h1 : lo ≤ x) (h2 : x ≤ hi) : clampQ x lo hi = x := by
  unfold clampQ
  rw [if_neg (not_lt.mpr h1), if_neg (not_lt.mpr h2)]

/-! Weight-map lemmas. -/

theorem wmGet_cons (e : String × ℚ) (rest : WeightMap) (k : String) :
    wmGet (e :: rest) k = if e.1 == k then some e.2 else wmGet rest k := by
  cases h : (e.1 == k) <;> simp [wmGet, List.find?, h]

theorem wmInsert_cons (e : String × ℚ) (rest : WeightMap) (k : String) (v : ℚ) :
    wmInsert (e :: rest) k v =
      if e.1 = k then (k, v) :: rest else e :: wmInsert rest k v := by
  obtain ⟨k0, w⟩ := e
  rfl

theorem wmGet_insert_self (m : WeightMap) (k : String) (v : ℚ) :
    wmGet (wmInsert m k v) k = some v := by
  induction m with
  | nil => simp [wmInsert, wmGet_cons]
  | cons e rest ih =>
    rw [wmInsert_cons]
    by_cases h : e.1 = k
    · rw [if_pos h, wmGet_cons]
      simp
    · rw [if_neg h, wmGet_cons, if_neg (by simp [h]), ih]

theorem wmGet_insert_ne (m : WeightMap) (k : String) (v : ℚ) (k' : String)
    (h : k' ≠ k) : wmGet (wmInsert m k v) k' = wmGet m k' := by
  induction m with
  | nil =>
    show wmGet [(k, v)] k' = none
    rw [wmGet_cons]
    rw [if_neg (by simp [Ne.symm h])]
    rfl
  | cons e rest ih =>
    rw [wmInsert_cons]
    by_cases hk : e.1 = k
    · rw [if_pos hk, wmGet_cons, wmGet_cons, hk]
      rw [if_neg (by simp [Ne.symm h]), if_neg (by simp [Ne.symm h])]
    · rw [if_neg hk, wmGet_cons, wmGet_cons, ih]

theorem wmInsert_forall {P : ℚ → Prop} (m : WeightMap) (k : String) (v : ℚ)
    (hm : ∀ e ∈ m, P e.2) (hv : P v) : ∀ e ∈ wmInsert m k v, P e.2 := by
  induction m with
  | nil =>
    intro e he
    simp only [wmInsert, List.mem_singleton] at he
    subst he
    exact hv
  | cons e0 rest ih =>
    obtain ⟨k0, w⟩ := e0
    intro e he
    by_cases h : k0 = k
    · simp only [wmInsert, if_pos h, List.mem_cons] at he
      rcases he with rfl | he
      · exact hv
      · exact hm e (List.mem_cons_of_mem _ he)
    · simp only [wmInsert, if_neg h, List.mem_cons] at he
      rcases he with rfl | he
      · exact hm _ (List.mem_cons_self _ _)
      · exact ih (fun e' he' => hm e' (List.mem_cons_of_mem _ he')) e he

theorem update_weight_get (m : WeightMap) (k : String) (s : ℚ) :
    wmGet (update_weight m k s) k =
      some (round3 (clampQ (wmGetD m k + LEARNING_RATE * (s - wmGetD m k)) (-1) 1)) := by
  unfold update_weight
  exact wmGet_insert_self _ _ _

theorem update_weight_get_ne (m : WeightMap) (k : String) (s : ℚ) (k' : String)
    (h : k' ≠ k) : wmGet (update_weight m k s) k' = wmGet m k' := by
  unfold update_weight
  exact wmGet_insert_ne _ _ _ _ h

theorem update_weight_inv (m : WeightMap) (k : String) (s : ℚ) (hm : wmInv m) :
    wmInv (update_weight m k s) := by
  unfold update_weight wmInv
  apply wmInsert_forall _ _ _ hm
  have hc := clampQ_mem (wmGetD m k + LEARNING_RATE * (s - wmGetD m k)) (-1) 1 (by norm_num)
  have hb := round3_bounds _ hc.1 hc.2
  exact ⟨hb.1, hb.2, round3_threeDec _⟩

theorem foldl_update_inv (l : List IngredientRow) (s : ℚ) (m : WeightMap)
    (hm : wmInv m) :
    wmInv (l.foldl (fun acc ing => update_weight acc ing.name s) m) := by
  induction l generalizing m with
  | nil => exact hm
  | cons i0 rest ih =>
    simp only [List.foldl_cons]
    exact ih _ (update_weight_inv _ _ _ hm)

theorem foldl_update_get_not_mem (l : List IngredientRow) (s : ℚ) (m : WeightMap)
    (k : String) (h : ∀ j ∈ l, j.name ≠ k) :
    wmGet (l.foldl (fun acc ing => update_weight acc ing.name s) m) k = wmGet m k := by
  induction l generalizing m with
  | nil => rfl
  | cons i0 rest ih =>
    simp only [List.foldl_cons]
    rw [ih _ (fun j hj => h j (List.mem_cons_of_mem _ hj))]
    exact update_weight_get_ne _ _ _ _ (fun hh => h i0 (List.mem_cons_self _ _) hh.symm)

theorem foldl_update_get_nodup (l : List IngredientRow) (s : ℚ) (m : WeightMap)
    (hnd : (l.map (·.name)).Nodup) (ing : IngredientRow) (hing : ing ∈ l) :
    wmGet (l.foldl (fun acc i => update_weight acc i.name s) m) ing.name =
      some (round3 (clampQ (wmGetD m ing.name + LEARNING_RATE * (s - wmGetD m ing.name))
        (-1) 1)) := by
  induction l generalizing m with
  | nil => cases hing
  | cons i0 rest ih =>
    simp only [List.map_cons, List.nodup_cons, List.mem_map] at hnd
    simp only [List.foldl_cons]
    rcases List.mem_cons.mp hing with rfl | hmem
    · rw [foldl_update_get_not_mem rest s _ ing.name
        (fun j hj heq => hnd.1 ⟨j, hj, heq⟩)]
      exact update_weight_get _ _ _
    · have hne : ing.name ≠ i0.name := by
        intro hh
        exact hnd.1 ⟨ing, hmem, hh⟩
      rw [ih _ hnd.2 hmem]
      unfold wmGetD
      rw [update_weight_get_ne _ _ _ _ hne]

/-! Definitional projections of `record_interaction_core`. -/

theorem ric_count (pref : PrefRow) (recipe : RecipeRow) (ings : List IngredientRow)
    (nut : Option NutritionRow) (sig : PreferenceSignal) :
    (record_interaction_core pref recipe ings nut sig).interaction_count
      = pref.interaction_count + 1 := rfl

theorem ric_cw (pref : PrefRow) (recipe : RecipeRow) (ings : List IngredientRow)
    (nut : Option NutritionRow) (sig : PreferenceSignal) :
    (record_interaction_core pref recipe ings nut sig).cuisine_weights =
      match recipe.cuisine with
      | some cuisine => update_weight pref.cuisine_weights cuisine sig.value
      | none => pref.cuisine_weights := rfl

theorem ric_dw (pref : PrefRow) (recipe : RecipeRow) (ings : List IngredientRow)
    (nut : Option NutritionRow) (sig : PreferenceSignal) :
    (record_interaction_core pref recipe ings nut sig).difficulty_weights =
      match recipe.difficulty with
      | some difficulty => update_weight pref.difficulty_weights difficulty sig.value
      | none => pref.difficulty_weights := rfl

theorem ric_iw (pref : PrefRow) (recipe : RecipeRow) (ings : List IngredientRow)
    (nut : Option NutritionRow) (sig : PreferenceSignal) :
    (record_interaction_core pref recipe ings nut sig).ingredient_weights =
      ings.foldl (fun m ing => update_weight m ing.name (sig.value * (1 / 2)))
        pref.ingredient_weights := rfl

theorem ric_time (pref : PrefRow) (recipe : RecipeRow) (ings : List IngredientRow)
    (nut : Option NutritionRow) (sig : PreferenceSignal) :
    (record_interaction_core pref recipe ings nut sig).preferred_time_min =
      match recipe.total_time_min with
      | some time =>
        if 0 < sig.value then
          ratTrunc (((pref.preferred_time_min : ℚ) * (pref.interaction_count : ℚ) + (time : ℚ))
            / ((pref.interaction_count : ℚ) + 1))
        else pref.preferred_time_min
      | none => pref.preferred_time_min := rfl

/-! C2 — every stored weight clamped and 3-decimal after any update run. -/

theorem inRange3_zero : inRange3 0 := ⟨by norm_num, by norm_num, 0, by norm_num⟩

theorem prefInv_initial : prefInv initialPref := by
  refine ⟨?_, ?_, ?_, ?_⟩ <;> intro e he
  · simp [initialPref] at he
  · simp [initialPref] at he
  · simp only [initialPref, List.mem_cons, List.not_mem_nil, or_false] at he
    rcases he with rfl | rfl | rfl <;> exact inRange3_zero
  · simp only [initialPref, List.mem_cons, List.not_mem_nil, or_false] at he
    rcases he with rfl | rfl | rfl <;> exact inRange3_zero

theorem record_interaction_core_inv (p : PrefRow) (recipe : RecipeRow)
    (ings : List IngredientRow) (nut : Option NutritionRow) (sig : PreferenceSignal)
    (hp : prefInv p) : prefInv (record_interaction_core p recipe ings nut sig) := by
  obtain ⟨h1, h2, h3, h4⟩ := hp
  refine ⟨?_, ?_, ?_, ?_⟩
  · rw [ric_cw]
    cases recipe.cuisine with
    | some c => exact update_weight_inv _ _ _ h1
    | none => exact h1
  · rw [ric_iw]
    exact foldl_update_inv _ _ _ h2
  · show wmInv (record_interaction_core p recipe ings nut sig).macro_bias
    cases nut with
    | none => exact h3
    | some n =>
      show wmInv (if 0 < n.calories.getD 0 then _ else p.macro_bias)
      by_cases hc : 0 < n.calories.getD 0
      · rw [if_pos hc]
        exact update_weight_inv _ _ _ (update_weight_inv _ _ _ (update_weight_inv _ _ _ h3))
      · rw [if_neg hc]
        exact h3
  · rw [ric_dw]
    cases recipe.difficulty with
    | some d => exact update_weight_inv _ _ _ h4
    | none => exact h4

/-- C2: after every `record_interaction` update — for any recipe, ingredient
rows, nutrition row and input signal, over any number of repeated updates
starting from the freshly created record — every weight stored in the
cuisine, ingredient, difficulty and macro-bias maps lies within `[-1, 1]`
and is an exact multiple of `1/1000` (rounded to 3 decimal places). -/
theorem C2_weights_clamped_and_rounded (steps : List InteractionInput) :
    prefInv (steps.foldl applyInteraction initialPref) := by
  suffices h : ∀ p, prefInv p → prefInv (steps.foldl applyInteraction p) from
    h _ prefInv_initial
  induction steps with
  | nil => exact fun p hp => hp
  | cons s rest ih =>
    intro p hp
    exact ih _ (record_interaction_core_inv _ _ _ _ _ hp)

/-! C7 — convergence of repeated 5-star ratings on one cuisine. -/

theorem rate5Step_cw (p : PrefRow) :
    (rate5Step p).cuisine_weights = update_weight p.cuisine_weights "italian" 1 := rfl

theorem cuisineWeightAfter_zero : cuisineWeightAfter 0 = 0 := rfl

theorem cuisineWeightAfter_succ (n : ℕ) :
    cuisineWeightAfter (n + 1) =
      round3 (clampQ (cuisineWeightAfter n
        + LEARNING_RATE * (1 - cuisineWeightAfter n)) (-1) 1) := by
  unfold cuisineWeightAfter
  rw [Function.iterate_succ_apply', rate5Step_cw]
  unfold wmGetD
  rw [update_weight_get]
  rfl

theorem cuisineWeightAfter_props (n : ℕ) :
    0 ≤ cuisineWeightAfter n ∧ cuisineWeightAfter n ≤ 1 ∧
      ∃ k : ℤ, cuisineWeightAfter n = (k : ℚ) / 1000 := by
  induction n with
  | zero =>
    exact ⟨le_refl 0, by norm_num [cuisineWeightAfter_zero], 0,
      by rw [cuisineWeightAfter_zero]; norm_num⟩
  | succ n ih =>
    obtain ⟨h0, h1, k, hk⟩ := ih
    rw [cuisineWeightAfter_succ]
    have hLR : LEARNING_RATE = 1 / 10 := rfl
    have hu0 : 0 ≤ cuisineWeightAfter n + LEARNING_RATE * (1 - cuisineWeightAfter n) := by
      rw [hLR]; linarith
    have hu1 : cuisineWeightAfter n + LEARNING_RATE * (1 - cuisineWeightAfter n) ≤ 1 := by
      rw [hLR]; linarith
    rw [clampQ_eq _ _ _ (by linarith) hu1]
    exact ⟨round3_nonneg _ hu0, (round3_bounds _ (by linarith) hu1).2, round3_threeDec _⟩

theorem cuisineWeightAfter_mono (n : ℕ) :
    cuisineWeightAfter n ≤ cuisineWeightAfter (n + 1) := by
  obtain ⟨h0, h1, k, hk⟩ := cuisineWeightAfter_props n
  rw [cuisineWeightAfter_succ]
  have hLR : LEARNING_RATE = 1 / 10 := rfl
  have hu0 : 0 ≤ cuisineWeightAfter n + LEARNING_RATE * (1 - cuisineWeightAfter n) := by
    rw [hLR]; linarith
  have hu1 : cuisineWeightAfter n + LEARNING_RATE * (1 - cuisineWeightAfter n) ≤ 1 := by
    rw [hLR]; linarith
  rw [clampQ_eq _ _ _ (by linarith) hu1]
  exact round3_ge_of_le _ k _ hk hu0 (by rw [hLR]; linarith)

theorem cuisineWeightAfter_one : cuisineWeightAfter 1 = 1 / 10 := by
  rw [show (1 : ℕ) = 0 + 1 from rfl, cuisineWeightAfter_succ, cuisineWeightAfter_zero]
  rw [clampQ_eq _ _ _ (by norm_num [LEARNING_RATE]) (by norm_num [LEARNING_RATE])]
  rw [round3_eval _ 100 (by norm_num [LEARNING_RATE]) (by norm_num [LEARNING_RATE])
    (by norm_num [LEARNING_RATE])]
  norm_num

theorem cuisineWeightAfter_two : cuisineWeightAfter 2 = 19 / 100 := by
  rw [show (2 : ℕ) = 1 + 1 from rfl, cuisineWeightAfter_succ, cuisineWeightAfter_one]
  rw [clampQ_eq _ _ _ (by norm_num [LEARNING_RATE]) (by norm_num [LEARNING_RATE])]
  rw [round3_eval _ 190 (by norm_num [LEARNING_RATE]) (by norm_num [LEARNING_RATE])
    (by norm_num [LEARNING_RATE])]
  norm_num

theorem cuisineWeightAfter_three : cuisineWeightAfter 3 = 271 / 1000 := by
  rw [show (3 : ℕ) = 2 + 1 from rfl, cuisineWeightAfter_succ, cuisineWeightAfter_two]
  rw [clampQ_eq _ _ _ (by norm_num [LEARNING_RATE]) (by norm_num [LEARNING_RATE])]
  exact round3_eval _ 271 (by norm_num [LEARNING_RATE]) (by norm_num [LEARNING_RATE])
    (by norm_num [LEARNING_RATE])

/-- C7: three consecutive `Rated(5)` interactions on a recipe with a known
cuisine drive the cuisine weight from absent (0.0) through 0.1 and 0.19 to
exactly 0.271, following the recurrence
`new = round3(clamp(old + 0.1 * (1 - old), -1, 1))`, and repeated 5-star
ratings are monotone nondecreasing and never exceed 1.0. -/
theorem C7_five_star_convergence :
    cuisineWeightAfter 1 = 1 / 10 ∧ cuisineWeightAfter 2 = 19 / 100 ∧
    cuisineWeightAfter 3 = 271 / 1000 ∧
    (∀ n, cuisineWeightAfter (n + 1) =
      round3 (clampQ (cuisineWeightAfter n
        + LEARNING_RATE * (1 - cuisineWeightAfter n)) (-1) 1)) ∧
    (∀ n, cuisineWeightAfter n ≤ 1) ∧
    (∀ n, cuisineWeightAfter n ≤ cuisineWeightAfter (n + 1)) :=
  ⟨cuisineWeightAfter_one, cuisineWeightAfter_two, cuisineWeightAfter_three,
    cuisineWeightAfter_succ, fun n => (cuisineWeightAfter_props n).2.1,
    cuisineWeightAfter_mono⟩

/-! C10 — out-of-range ratings derive signal 0.0 but still update fully. -/

theorem value_rated_invalid (n : ℤ) (h : n < 1 ∨ 5 < n) :
    (PreferenceSignal.Rated n).value = 0 := by
  have h5 : n ≠ 5 := by omega
  have h4 : n ≠ 4 := by omega
  have h3 : n ≠ 3 := by omega
  have h2 : n ≠ 2 := by omega
  have h1 : n ≠ 1 := by omega
  simp only [PreferenceSignal.value, if_neg h5, if_neg h4, if_neg h3, if_neg h2, if_neg h1]

/-- C10: a `Rated(n)` signal with `n` outside `1..5` derives value `0.0`,
and `record_interaction` still performs a full update: every touched
cuisine, difficulty and ingredient weight decays by
`new = round3(0.9 * old)` (for stored weights in `[-1, 1]`),
`preferred_time_min` is left unchanged (the signal is not positive), and the
interaction count is still incremented by 1. -/
theorem C10_invalid_rating_full_update (n : ℤ) (pref : PrefRow) (recipe : RecipeRow)
    (ings : List IngredientRow) (nut : Option NutritionRow)
    (h : n < 1 ∨ 5 < n) :
    (PreferenceSignal.Rated n).value = 0 ∧
    (record_interaction_core pref recipe ings nut (.Rated n)).interaction_count
      = pref.interaction_count + 1 ∧
    (record_interaction_core pref recipe ings nut (.Rated n)).preferred_time_min
      = pref.preferred_time_min ∧
    (∀ c, recipe.cuisine = some c → -1 ≤ wmGetD pref.cuisine_weights c →
      wmGetD pref.cuisine_weights c ≤ 1 →
      wmGet (record_interaction_core pref recipe ings nut (.Rated n)).cuisine_weights c
        = some (round3 (9 / 10 * wmGetD pref.cuisine_weights c))) ∧
    (∀ d, recipe.difficulty = some d → -1 ≤ wmGetD pref.difficulty_weights d →
      wmGetD pref.difficulty_weights d ≤ 1 →
      wmGet (record_interaction_core pref recipe ings nut (.Rated n)).difficulty_weights d
        = some (round3 (9 / 10 * wmGetD pref.difficulty_weights d))) ∧
    ((ings.map (·.name)).Nodup → ∀ ing ∈ ings,
      -1 ≤ wmGetD pref.ingredient_weights ing.name →
      wmGetD pref.ingredient_weights ing.name ≤ 1 →
      wmGet (record_interaction_core pref recipe ings nut (.Rated n)).ingredient_weights ing.name
        = some (round3 (9 / 10 * wmGetD pref.ingredient_weights ing.name))) := by
  have hv : (PreferenceSignal.Rated n).value = 0 := value_rated_invalid n h
  refine ⟨hv, ric_count _ _ _ _ _, ?_, ?_, ?_, ?_⟩
  · rw [ric_time, hv]
    rcases recipe.total_time_min with _ | t
    · rfl
    · simp
  · intro c hc hlo hhi
    rw [ric_cw, hc]
    show wmGet (update_weight pref.cuisine_weights c (PreferenceSignal.Rated n).value) c = _
    rw [hv, update_weight_get]
    have harith : wmGetD pref.cuisine_weights c
        + LEARNING_RATE * (0 - wmGetD pref.cuisine_weights c)
        = 9 / 10 * wmGetD pref.cuisine_weights c := by
      show wmGetD pref.cuisine_weights c
        + 1 / 10 * (0 - wmGetD pref.cuisine_weights c) = _
      ring
    rw [harith, clampQ_eq _ _ _ (by linarith) (by linarith)]
  · intro d hd hlo hhi
    rw [ric_dw, hd]
    show wmGet (update_weight pref.difficulty_weights d (PreferenceSignal.Rated n).value) d = _
    rw [hv, update_weight_get]
    have harith : wmGetD pref.difficulty_weights d
        + LEARNING_RATE * (0 - wmGetD pref.difficulty_weights d)
        = 9 / 10 * wmGetD pref.difficulty_weights d := by
      show wmGetD pref.difficulty_weights d
        + 1 / 10 * (0 - wmGetD pref.difficulty_weights d) = _
      ring
    rw [harith, clampQ_eq _ _ _ (by linarith) (by linarith)]
  · intro hnd ing hing hlo hhi
    rw [ric_iw, hv]
    rw [foldl_update_get_nodup _ _ _ hnd ing hing]
    have harith : wmGetD pref.ingredient_weights ing.name
        + LEARNING_RATE * (0 * (1 / 2) - wmGetD pref.ingredient_weights ing.name)
        = 9 / 10 * wmGetD pref.ingredient_weights ing.name := by
      show wmGetD pref.ingredient_weights ing.name
        + 1 / 10 * (0 * (1 / 2) - wmGetD pref.ingredient_weights ing.name) = _
      ring
    rw [harith, clampQ_eq _ _ _ (by linarith) (by linarith)]

/-- Witness for C10 at the concrete rating 7. -/
theorem C10_invalid_rating_witness : (PreferenceSignal.Rated 7).value = 0 :=
  (C10_invalid_rating_full_update 7 initialPref recipe10 [] none (Or.inr (by norm_num))).1

/-! Characterisation of `score_recipe_for_user` and `get_or_create`. -/

theorem get_or_create_eq (db : Db) :
    get_or_create db =
      match db.pref with
      | some p => (p, db)
      | none => (initialPref, { db with pref := some initialPref }) := rfl

theorem score_recipe_for_user_eq (db : Db) (rid : ℤ) :
    score_recipe_for_user db rid =
      match db.recipes.find? (fun r => r.id == rid) with
      | none => (.error (.NotFound "Recipe"), (get_or_create db).2)
      | some recipe =>
        (.ok (score_recipe_core (get_or_create db).1 recipe
          (recipeIngredientsOf db rid) (ingredientsOf db (recipeIngredientsOf db rid))),
          (get_or_create db).2) := by
  cases hp : db.pref with
  | none =>
    have hg : get_or_create db = (initialPref, { db with pref := some initialPref }) := by
      unfold get_or_create
      rw [hp]
    unfold score_recipe_for_user
    rw [hg]
    rfl
  | some p =>
    have hg : get_or_create db = (p, db) := by
      unfold get_or_create
      rw [hp]
    unfold score_recipe_for_user
    rw [hg]

theorem score_recipe_for_user_snd (db : Db) (rid : ℤ) :
    (score_recipe_for_user db rid).2 = (get_or_create db).2 := by
  rw [score_recipe_for_user_eq]
  cases db.recipes.find? (fun r => r.id == rid) <;> rfl

/-- Frame facts: scoring touches nothing but the preference row. -/
theorem score_recipe_for_user_frame (db : Db) (rid : ℤ) :
    (score_recipe_for_user db rid).2.recipes = db.recipes ∧
    (score_recipe_for_user db rid).2.recipe_ingredients = db.recipe_ingredients ∧
    (score_recipe_for_user db rid).2.ingredients = db.ingredients ∧
    (score_recipe_for_user db rid).2.nutrition = db.nutrition ∧
    (score_recipe_for_user db rid).2.inventory = db.inventory ∧
    (score_recipe_for_user db rid).2.history = db.history ∧
    (score_recipe_for_user db rid).2.favorites = db.favorites ∧
    (score_recipe_for_user db rid).2.plans = db.plans ∧
    (score_recipe_for_user db rid).2.slots = db.slots ∧
    (score_recipe_for_user db rid).2.next_plan_id = db.next_plan_id := by
  rw [score_recipe_for_user_snd, get_or_create_eq]
  cases db.pref <;> exact ⟨rfl, rfl, rfl, rfl, rfl, rfl, rfl, rfl, rfl, rfl⟩

/-- C9 (amended): `score_recipe_for_user` never changes recipes, plans,
slots, inventory or any other table; when the user already has a preference
row it changes nothing at all, but for a user with no preference row it
lazily inserts the fresh neutral row (so it is not fully read-only). -/
theorem C9_score_read_only_amended (db : Db) (rid : ℤ) :
    ((score_recipe_for_user db rid).2.recipes = db.recipes ∧
     (score_recipe_for_user db rid).2.recipe_ingredients = db.recipe_ingredients ∧
     (score_recipe_for_user db rid).2.ingredients = db.ingredients ∧
     (score_recipe_for_user db rid).2.nutrition = db.nutrition ∧
     (score_recipe_for_user db rid).2.inventory = db.inventory ∧
     (score_recipe_for_user db rid).2.history = db.history ∧
     (score_recipe_for_user db rid).2.favorites = db.favorites ∧
     (score_recipe_for_user db rid).2.plans = db.plans ∧
     (score_recipe_for_user db rid).2.slots = db.slots ∧
     (score_recipe_for_user db rid).2.next_plan_id = db.next_plan_id) ∧
    (∀ p, db.pref = some p → (score_recipe_for_user db rid).2 = db) ∧
    (db.pref = none →
      (score_recipe_for_user db rid).2 = { db with pref := some initialPref }) := by
  refine ⟨score_recipe_for_user_frame db rid, ?_, ?_⟩
  · intro p hp
    rw [score_recipe_for_user_snd, get_or_create_eq, hp]
  · intro hp
    rw [score_recipe_for_user_snd, get_or_create_eq, hp]

/-- Counterexample to C9 as stated: for a user with no preference record,
`ScoreRecipeForUser` inserts a neutral preference row, so the persisted
state is not left unchanged. -/
theorem C9_counterexample :
    dbEmpty.pref = none ∧ (score_recipe_for_user dbEmpty 1).2 ≠ dbEmpty := by
  refine ⟨rfl, ?_⟩
  intro h
  have h1 : (score_recipe_for_user dbEmpty 1).2.pref = some initialPref := rfl
  rw [h] at h1
  exact Option.noConfusion h1

/-- C8 (amended): a missing ingredient or nutrition row never makes
`score_recipe_for_user` fail (for any database whose recipe lookup succeeds
the result is `ok`, whatever the ingredient data), but a missing recipe row
is a hard `NotFound` error, not graceful degradation. -/
theorem C8_missing_rows_amended (db : Db) (rid : ℤ) :
    (db.recipes.find? (fun r => r.id == rid) = none →
      (score_recipe_for_user db rid).1 = .error (.NotFound "Recipe")) ∧
    (∀ recipe, db.recipes.find? (fun r => r.id == rid) = some recipe →
      (score_recipe_for_user db rid).1 = .ok (score_recipe_core (get_or_create db).1 recipe
        (recipeIngredientsOf db rid) (ingredientsOf db (recipeIngredientsOf db rid)))) := by
  constructor
  · intro hn
    rw [score_recipe_for_user_eq, hn]
  · intro recipe hs
    rw [score_recipe_for_user_eq, hs]

/-- Counterexample to C8 as stated: scoring a recipe id with no recipe row
returns the hard error `NotFound("Recipe")` instead of degrading. -/
theorem C8_counterexample :
    (score_recipe_for_user dbEmpty 1).1 = .error (.NotFound "Recipe") := rfl

/-! Refinement of `score_recipe_core` to the declarative component average. -/

set_option maxHeartbeats 3000000 in
theorem score_core_refines (pref : PrefRow) (recipe : RecipeRow)
    (ris : List RecipeIngredientRow) (ings : List IngredientRow) :
    score_recipe_core pref recipe ris ings = score_spec_amended pref recipe ris ings := by
  obtain ⟨rid, rcui, rcat, rdif, rserv, rtime⟩ := recipe
  rcases rcui with _ | c
  · rcases rdif with _ | d
    · rcases rtime with _ | t <;> rcases ris with _ | ⟨r0, rrest⟩ <;>
        simp only [score_recipe_core, score_spec_amended, componentList, cuisineComponent,
          difficultyComponent, timeComponent, ingredientComponent, *,
          Option.toList_some, Option.toList_none, Option.some_bind', Option.none_bind',
          Option.map_some', Option.map_none', List.isEmpty_nil, List.isEmpty_cons,
          List.nil_append, List.cons_append, List.append_nil, List.sum_cons, List.sum_nil,
          List.length_cons, List.length_nil, ite_true, ite_false] <;>
        norm_num <;>
        (try (congr 1 <;> push_cast <;> ring))
    · rcases hdw : wmGet pref.difficulty_weights d with _ | w2 <;>
        rcases rtime with _ | t <;> rcases ris with _ | ⟨r0, rrest⟩ <;>
        simp only [score_recipe_core, score_spec_amended, componentList, cuisineComponent,
          difficultyComponent, timeComponent, ingredientComponent, *,
          Option.toList_some, Option.toList_none, Option.some_bind', Option.none_bind',
          Option.map_some', Option.map_none', List.isEmpty_nil, List.isEmpty_cons,
          List.nil_append, List.cons_append, List.append_nil, List.sum_cons, List.sum_nil,
          List.length_cons, List.length_nil, ite_true, ite_false] <;>
        norm_num <;>
        (try (congr 1 <;> push_cast <;> ring))
  · rcases rdif with _ | d
    · rcases hcw : wmGet pref.cuisine_weights c with _ | w <;>
        rcases rtime with _ | t <;> rcases ris with _ | ⟨r0, rrest⟩ <;>
        simp only [score_recipe_core, score_spec_amended, componentList, cuisineComponent,
          difficultyComponent, timeComponent, ingredientComponent, *,
          Option.toList_some, Option.toList_none, Option.some_bind', Option.none_bind',
          Option.map_some', Option.map_none', List.isEmpty_nil, List.isEmpty_cons,
          List.nil_append, List.cons_append, List.append_nil, List.sum_cons, List.sum_nil,
          List.length_cons, List.length_nil, ite_true, ite_false] <;>
        norm_num <;>
        (try (congr 1 <;> push_cast <;> ring))
    · rcases hcw : wmGet pref.cuisine_weights c with _ | w <;>
        rcases hdw : wmGet pref.difficulty_weights d with _ | w2 <;>
        rcases rtime with _ | t <;> rcases ris with _ | ⟨r0, rrest⟩ <;>
        simp only [score_recipe_core, score_spec_amended, componentList, cuisineComponent,
          difficultyComponent, timeComponent, ingredientComponent, *,
          Option.toList_some, Option.toList_none, Option.some_bind', Option.none_bind',
          Option.map_some', Option.map_none', List.isEmpty_nil, List.isEmpty_cons,
          List.nil_append, List.cons_append, List.append_nil, List.sum_cons, List.sum_nil,
          List.length_cons, List.length_nil, ite_true, ite_false] <;>
        norm_num <;>
        (try (congr 1 <;> push_cast <;> ring))

/-- C1 (amended): when no scoring component matched, `Score` returns
exactly 0.0 (the zero average clamped to `[0, 1]`), not 0.5; a user with no
preference record gets a lazily created neutral record and is scored by the
same rule; otherwise the score is the matched-component average clamped to
`[0, 1]`. -/
theorem C1_score_value_amended (pref : PrefRow) (recipe : RecipeRow)
    (ris : List RecipeIngredientRow) (ings : List IngredientRow) :
    (componentList pref recipe ris ings = [] → score_recipe_core pref recipe ris ings = 0) ∧
    (componentList pref recipe ris ings ≠ [] →
      score_recipe_core pref recipe ris ings
        = clampQ ((componentList pref recipe ris ings).sum
            / ((componentList pref recipe ris ings).length : ℚ)) 0 1) ∧
    0 ≤ score_recipe_core pref recipe ris ings ∧
    score_recipe_core pref recipe ris ings ≤ 1 ∧
    (∀ db rid recipe', db.pref = none →
      db.recipes.find? (fun r => r.id == rid) = some recipe' →
      (score_recipe_for_user db rid).1 = .ok (score_recipe_core initialPref recipe'
        (recipeIngredientsOf db rid) (ingredientsOf db (recipeIngredientsOf db rid)))) := by
  refine ⟨?_, ?_, ?_, ?_, ?_⟩
  · intro hL
    rw [score_core_refines]
    unfold score_spec_amended
    rw [hL]
    simp [clampQ]
  · intro hL
    rw [score_core_refines]
    unfold score_spec_amended
    rcases hL' : componentList pref recipe ris ings with _ | ⟨x, xs⟩
    · exact absurd hL' hL
    · simp
  · rw [score_core_refines]
    exact (clampQ_mem _ 0 1 (by norm_num)).1
  · rw [score_core_refines]
    exact (clampQ_mem _ 0 1 (by norm_num)).2
  · intro db rid recipe' hpref hfind
    rw [score_recipe_for_user_eq, hfind]
    have hg : (get_or_create db).1 = initialPref := by
      rw [get_or_create_eq, hpref]
    rw [hg]

/-- Counterexample to C1 as stated: a first-time user scoring a recipe with
unknown cuisine, unknown difficulty, no total time and no ingredient rows
gets exactly 0.0 from `Score`, not the claimed 0.5. -/
theorem C1_counterexample :
    dbBare.pref = none ∧
    componentList initialPref recipeBare [] [] = [] ∧
    (score_recipe_for_user dbBare 1).1 = .ok 0 ∧
    ((0 : ℚ) ≠ 1 / 2) := by
  refine ⟨rfl, rfl, ?_, by norm_num⟩
  rfl

/-- C4 (amended): `Score` averages only over components that matched — an
unknown cuisine or difficulty contributes no component — but the ingredient
component is the sum of the known ingredient weights divided by the number
of fetched ingredient rows (unknown ingredients still count in the
denominator, i.e. they contribute zero, not nothing), and it counts as one
matched component whenever the recipe has any ingredient rows. -/
theorem C4_component_accounting_amended (pref : PrefRow) (recipe : RecipeRow)
    (ris : List RecipeIngredientRow) (ings : List IngredientRow) :
    score_recipe_core pref recipe ris ings = score_spec_amended pref recipe ris ings ∧
    (∀ c, recipe.cuisine = some c → wmGet pref.cuisine_weights c = none →
      componentList pref recipe ris ings
        = componentList pref { recipe with cuisine := none } ris ings) ∧
    (∀ d, recipe.difficulty = some d → wmGet pref.difficulty_weights d = none →
      componentList pref recipe ris ings
        = componentList pref { recipe with difficulty := none } ris ings) ∧
    (ris ≠ [] → ingredientComponent pref ris ings =
      some ((ings.filterMap (fun ing => wmGet pref.ingredient_weights ing.name)).sum
        / ((max ings.length 1 : ℕ) : ℚ))) := by
  refine ⟨score_core_refines pref recipe ris ings, ?_, ?_, ?_⟩
  · intro c hc hw
    unfold componentList cuisineComponent difficultyComponent timeComponent
    simp only [hc, Option.some_bind', hw]
    rfl
  · intro d hd hw
    unfold componentList cuisineComponent difficultyComponent timeComponent
    simp only [hd, Option.some_bind', hw]
    rfl
  · intro h
    unfold ingredientComponent
    rcases ris with _ | ⟨r0, rrest⟩
    · exact absurd rfl h
    · rfl

/-- Counterexample to C4 as stated: with one known ingredient weight 1.0 and
one unknown ingredient, the code's ingredient-only score is 0.5 (sum of
known weights over the total ingredient count), while the claimed mean of
known ingredient weights is 1.0. -/
theorem C4_counterexample :
    score_recipe_core pref4 recipeBare ris4 ings4 = 1 / 2 ∧
    mean_known_ingredient_weights pref4 ings4 = 1 ∧
    clampQ (mean_known_ingredient_weights pref4 ings4) 0 1 = 1 ∧
    ((1 / 2 : ℚ) ≠ 1) := by
  have hmean : mean_known_ingredient_weights pref4 ings4 = 1 := by
    simp [mean_known_ingredient_weights, pref4, ings4, initialPref, wmGet, List.find?,
      List.filterMap]
  refine ⟨?_, hmean, ?_, by norm_num⟩
  · simp [score_recipe_core, pref4, recipeBare, ris4, ings4, initialPref,
      wmGet, wmGetD, List.find?, List.filterMap]
    norm_num [clampQ]
  · rw [hmean]
    norm_num [clampQ]

/-! C6 — shopping-list aggregation lemmas. -/

theorem lookupQ_cons (e : ℤ × ℚ) (rest : List (ℤ × ℚ)) (k : ℤ) :
    lookupQ (e :: rest) k = if e.1 == k then some e.2 else lookupQ rest k := by
  cases h : (e.1 == k) <;> simp [lookupQ, List.find?, h]

theorem lookupQ_some_mem (l : List (ℤ × ℚ)) (k : ℤ) (v : ℚ)
    (h : lookupQ l k = some v) : (k, v) ∈ l := by
  induction l with
  | nil => cases h
  | cons e rest ih =>
    rw [lookupQ_cons] at h
    by_cases hk : e.1 = k
    · rw [if_pos (by simp [hk])] at h
      obtain rfl : e.2 = v := Option.some_injective _ h
      subst hk
      rw [Prod.mk.eta]
      exact List.mem_cons_self _ _
    · rw [if_neg (by simp [hk])] at h
      exact List.mem_cons_of_mem _ (ih h)

theorem lookupQ_of_mem_nodup (l : List (ℤ × ℚ)) (k : ℤ) (v : ℚ)
    (hnd : (l.map Prod.fst).Nodup) (h : (k, v) ∈ l) : lookupQ l k = some v := by
  induction l with
  | nil => cases h
  | cons e rest ih =>
    simp only [List.map_cons, List.nodup_cons, List.mem_map] at hnd
    rw [lookupQ_cons]
    rcases List.mem_cons.mp h with rfl | hmem
    · rw [if_pos (by simp)]
    · have hne : e.1 ≠ k := by
        intro hh
        exact hnd.1 ⟨(k, v), hmem, hh.symm⟩
      rw [if_neg (by simp [hne])]
      exact ih hnd.2 hmem

theorem bumpNeeded_cons (k0 : ℤ) (v : ℚ) (rest : List (ℤ × ℚ)) (k : ℤ) (q : ℚ) :
    bumpNeeded ((k0, v) :: rest) k q =
      if k0 = k then (k0, v + q) :: rest else (k0, v) :: bumpNeeded rest k q := rfl

theorem bumpNeeded_lookup_self (m : List (ℤ × ℚ)) (k : ℤ) (q : ℚ) :
    lookupQ (bumpNeeded m k q) k = some ((lookupQ m k).getD 0 + q) := by
  induction m with
  | nil =>
    show lookupQ [(k, q)] k = some (((none : Option ℚ)).getD 0 + q)
    rw [lookupQ_cons, if_pos (by simp)]
    simp
  | cons e rest ih =>
    obtain ⟨k0, v⟩ := e
    rw [bumpNeeded_cons]
    by_cases hk : k0 = k
    · subst hk
      rw [if_pos rfl, lookupQ_cons, lookupQ_cons, if_pos (by simp), if_pos (by simp)]
      simp
    · rw [if_neg hk, lookupQ_cons, lookupQ_cons, if_neg (by simp [hk]),
        if_neg (by simp [hk])]
      exact ih

theorem bumpNeeded_lookup_ne (m : List (ℤ × ℚ)) (k : ℤ) (q : ℚ) (k' : ℤ)
    (h : k' ≠ k) : lookupQ (bumpNeeded m k q) k' = lookupQ m k' := by
  induction m with
  | nil =>
    show lookupQ [(k, q)] k' = lookupQ [] k'
    rw [lookupQ_cons, if_neg (by simp [Ne.symm h])]
  | cons e rest ih =>
    obtain ⟨k0, v⟩ := e
    rw [bumpNeeded_cons]
    by_cases hk : k0 = k
    · have hne : k0 ≠ k' := by
        rw [hk]
        exact Ne.symm h
      rw [if_pos hk, lookupQ_cons, lookupQ_cons, if_neg (by simp [hne]),
        if_neg (by simp [hne])]
    · rw [if_neg hk, lookupQ_cons, lookupQ_cons, ih]

theorem bumpNeeded_keys (m : List (ℤ × ℚ)) (k : ℤ) (q : ℚ) :
    (bumpNeeded m k q).map Prod.fst =
      if k ∈ m.map Prod.fst then m.map Prod.fst else m.map Prod.fst ++ [k] := by
  induction m with
  | nil => simp [bumpNeeded]
  | cons e rest ih =>
    obtain ⟨k0, v⟩ := e
    rw [bumpNeeded_cons]
    by_cases hk : k0 = k
    · subst hk
      rw [if_pos rfl]
      simp
    · rw [if_neg hk]
      simp only [List.map_cons, ih, List.mem_cons]
      by_cases hmem : k ∈ rest.map Prod.fst
      · rw [if_pos hmem, if_pos (Or.inr hmem)]
      · rw [if_neg hmem, if_neg (by rintro (h | h); exact hk h.symm; exact hmem h)]
        simp

theorem bumpNeeded_keys_nodup (m : List (ℤ × ℚ)) (k : ℤ) (q : ℚ)
    (h : (m.map Prod.fst).Nodup) : ((bumpNeeded m k q).map Prod.fst).Nodup := by
  rw [bumpNeeded_keys]
  by_cases hmem : k ∈ m.map Prod.fst
  · rwa [if_pos hmem]
  · rw [if_neg hmem]
    rw [show m.map Prod.fst ++ [k] = (m.map Prod.fst).concat k from
      (List.concat_eq_append _ _).symm]
    exact h.concat hmem

theorem neededFold_lookup (rows : List RecipeIngredientRow) (m : List (ℤ × ℚ)) (iid : ℤ) :
    lookupQ (rows.foldl neededStep m) iid =
      if contribsL rows iid = [] then lookupQ m iid
      else some ((lookupQ m iid).getD 0 + (contribsL rows iid).sum) := by
  induction rows generalizing m with
  | nil => simp [contribsL]
  | cons ri rest ih =>
    simp only [List.foldl_cons]
    by_cases hid : ri.ingredient_id = iid
    · cases hq : ri.quantity_grams with
      | none =>
        have hc : contribsL (ri :: rest) iid = contribsL rest iid := by
          simp [contribsL, List.filterMap_cons, hid, hq]
        rw [hc]
        have hstep : neededStep m ri = m := by simp [neededStep, hq]
        rw [hstep]
        exact ih m
      | some q =>
        have hc : contribsL (ri :: rest) iid = q :: contribsL rest iid := by
          simp [contribsL, List.filterMap_cons, hid, hq]
        have hstep : neededStep m ri = bumpNeeded m iid q := by
          simp [neededStep, hq, hid]
        rw [hc, hstep, ih]
        by_cases hrest : contribsL rest iid = []
        · rw [if_pos hrest]
          rw [if_neg (by simp)]
          rw [bumpNeeded_lookup_self, hrest]
          simp
        · rw [if_neg hrest, if_neg (by simp)]
          rw [bumpNeeded_lookup_self]
          simp only [List.sum_cons, Option.getD_some]
          ring_nf
    · have hc : contribsL (ri :: rest) iid = contribsL rest iid := by
        cases hq : ri.quantity_grams <;> simp [contribsL, List.filterMap_cons, hid, hq]
      have hstep : lookupQ (neededStep m ri) iid = lookupQ m iid := by
        cases hq : ri.quantity_grams with
        | none => simp [neededStep, hq]
        | some q =>
          simp only [neededStep, hq]
          exact bumpNeeded_lookup_ne _ _ _ _ (fun hh => hid hh.symm)
      rw [hc, ih, hstep]

theorem neededFold_keys_nodup (rows : List RecipeIngredientRow) (m : List (ℤ × ℚ))
    (h : (m.map Prod.fst).Nodup) : ((rows.foldl neededStep m).map Prod.fst).Nodup := by
  induction rows generalizing m with
  | nil => exact h
  | cons ri rest ih =>
    simp only [List.foldl_cons]
    apply ih
    cases hq : ri.quantity_grams with
    | none => simpa [neededStep, hq] using h
    | some q =>
      simp only [neededStep, hq]
      exact bumpNeeded_keys_nodup _ _ _ h

theorem neededOf_lookup (rows : List RecipeIngredientRow) (iid : ℤ) :
    lookupQ (neededOf rows) iid =
      if contribsL rows iid = [] then none else some ((contribsL rows iid).sum) := by
  unfold neededOf
  rw [neededFold_lookup]
  by_cases h : contribsL rows iid = []
  · rw [if_pos h, if_pos h]
    rfl
  · rw [if_neg h, if_neg h]
    simp [lookupQ]

theorem neededOf_keys_nodup (rows : List RecipeIngredientRow) :
    ((neededOf rows).map Prod.fst).Nodup := by
  unfold neededOf
  exact neededFold_keys_nodup rows [] (by simp)

theorem neededOf_mem_val (rows : List RecipeIngredientRow) (kv : ℤ × ℚ)
    (h : kv ∈ neededOf rows) :
    contribsL rows kv.1 ≠ [] ∧ kv.2 = (contribsL rows kv.1).sum := by
  have hl : lookupQ (neededOf rows) kv.1 = some kv.2 := by
    obtain ⟨k, v⟩ := kv
    exact lookupQ_of_mem_nodup _ _ _ (neededOf_keys_nodup rows) h
  rw [neededOf_lookup] at hl
  by_cases hc : contribsL rows kv.1 = []
  · rw [if_pos hc] at hl
    cases hl
  · rw [if_neg hc] at hl
    exact ⟨hc, (Option.some_injective _ hl).symm⟩

theorem shoppingEntryOf_some_iff (db : Db) (kv : ℤ × ℚ) (e : ShoppingEntry) :
    shoppingEntryOf db kv = some e ↔
      haveOf db kv.1 < kv.2 ∧
      e = { ingredient_id := kv.1
            name := (ingredientName db kv.1).getD ""
            needed_grams := kv.2
            have_grams := haveOf db kv.1
            to_buy_grams := kv.2 - haveOf db kv.1
            in_inventory := decide (0 < haveOf db kv.1) } := by
  unfold shoppingEntryOf
  dsimp only
  split_ifs with h
  · constructor
    · intro he
      exact ⟨h, (Option.some_injective _ he).symm⟩
    · rintro ⟨_, rfl⟩
      rfl
  · constructor
    · intro he
      cases he
    · rintro ⟨hlt, _⟩
      exact absurd hlt h

theorem filterMap_entry_ids (db : Db) (needed : List (ℤ × ℚ)) :
    ((needed.filterMap (shoppingEntryOf db)).map (fun e => e.ingredient_id)).Sublist
      (needed.map Prod.fst) := by
  induction needed with
  | nil => simp
  | cons kv rest ih =>
    rw [List.filterMap_cons]
    cases he : shoppingEntryOf db kv with
    | none => exact ih.cons _
    | some e =>
      have hid : e.ingredient_id = kv.1 := by
        obtain ⟨_, rfl⟩ := (shoppingEntryOf_some_iff db kv e).mp he
        rfl
      simp only [List.map_cons, hid]
      exact ih.cons₂ _

theorem shoppingListFor_mem (db : Db) (plan : PlanRow) (e : ShoppingEntry) :
    e ∈ shoppingListFor db plan ↔
      ∃ kv ∈ neededOf (requiredRows db ((incompleteSlots db plan).map (·.recipe_id))),
        shoppingEntryOf db kv = some e := by
  unfold shoppingListFor
  dsimp only
  rw [List.Perm.mem_iff (List.mergeSort_perm _ _)]
  exact List.mem_filterMap

theorem shoppingListFor_sorted (db : Db) (plan : PlanRow) :
    List.Pairwise (fun a b : ShoppingEntry => a.name ≤ b.name) (shoppingListFor db plan) := by
  unfold shoppingListFor
  dsimp only
  have hs := @List.sorted_mergeSort ShoppingEntry
    (fun a b : ShoppingEntry => decide (a.name ≤ b.name))
    (fun a b c hab hbc => by
      simp only [decide_eq_true_eq] at *
      exact le_trans hab hbc)
    (fun a b => by
      simp only [Bool.or_eq_true, decide_eq_true_eq]
      exact le_total a.name b.name)
    ((neededOf (requiredRows db ((incompleteSlots db plan).map (·.recipe_id)))).filterMap
      (shoppingEntryOf db))
  exact hs.imp (fun h => of_decide_eq_true h)

theorem shoppingListFor_ids_nodup (db : Db) (plan : PlanRow) :
    ((shoppingListFor db plan).map (fun e => e.ingredient_id)).Nodup := by
  unfold shoppingListFor
  dsimp only
  have hperm := (List.mergeSort_perm
    ((neededOf (requiredRows db ((incompleteSlots db plan).map (·.recipe_id)))).filterMap
      (shoppingEntryOf db)) (fun a b => a.name ≤ b.name)).map
    (fun e : ShoppingEntry => e.ingredient_id)
  rw [hperm.nodup_iff]
  exact (filterMap_entry_ids db _).nodup (neededOf_keys_nodup _)

/-- C6: `get_shopping_list` aggregates required grams per ingredient over
only the incomplete slots of the week's plan, emits one entry per
ingredient exactly when `needed > have` with `toBuy = needed - have` (never
`toBuy ≤ 0`), returns the empty list when no plan exists or the plan has no
incomplete slots, and sorts the output by ingredient name ascending. -/
theorem C6_shopping_list_properties (db : Db) (ws : ℤ) :
    (db.plans.find? (fun p => p.week_start == ws) = none → get_shopping_list db ws = []) ∧
    (∀ plan, db.plans.find? (fun p => p.week_start == ws) = some plan →
      incompleteSlots db plan = [] → get_shopping_list db ws = []) ∧
    (∀ e ∈ get_shopping_list db ws,
      e.have_grams < e.needed_grams ∧ e.to_buy_grams = e.needed_grams - e.have_grams ∧
        0 < e.to_buy_grams) ∧
    List.Pairwise (fun a b => a.name ≤ b.name) (get_shopping_list db ws) ∧
    (∀ plan, db.plans.find? (fun p => p.week_start == ws) = some plan →
      (∀ e ∈ get_shopping_list db ws,
        e.have_grams = haveOf db e.ingredient_id ∧
        e.needed_grams = (contribsL
          (requiredRows db ((incompleteSlots db plan).map (·.recipe_id)))
          e.ingredient_id).sum) ∧
      (∀ iid,
        contribsL (requiredRows db ((incompleteSlots db plan).map (·.recipe_id))) iid ≠ [] →
        haveOf db iid <
          (contribsL (requiredRows db ((incompleteSlots db plan).map (·.recipe_id))) iid).sum →
        ∃ e ∈ get_shopping_list db ws, e.ingredient_id = iid)) ∧
    ((get_shopping_list db ws).map (fun e => e.ingredient_id)).Nodup := by
  refine ⟨?_, ?_, ?_, ?_, ?_, ?_⟩
  · intro h
    unfold get_shopping_list
    rw [h]
  · intro plan hplan hslots
    unfold get_shopping_list
    rw [hplan]
    dsimp only
    unfold shoppingListFor
    rw [hslots]
    simp [requiredRows, neededOf]
  · intro e he
    unfold get_shopping_list at he
    cases hplan : db.plans.find? (fun p => p.week_start == ws) with
    | none =>
      rw [hplan] at he
      cases he
    | some plan =>
      rw [hplan] at he
      obtain ⟨kv, _, hkv⟩ := (shoppingListFor_mem db plan e).mp he
      obtain ⟨hlt, rfl⟩ := (shoppingEntryOf_some_iff db kv e).mp hkv
      exact ⟨hlt, rfl, by simpa using sub_pos.mpr hlt⟩
  · unfold get_shopping_list
    cases hplan : db.plans.find? (fun p => p.week_start == ws) with
    | none => exact List.Pairwise.nil
    | some plan => exact shoppingListFor_sorted db plan
  · intro plan hplan
    constructor
    · intro e he
      unfold get_shopping_list at he
      rw [hplan] at he
      obtain ⟨kv, hkvmem, hkv⟩ := (shoppingListFor_mem db plan e).mp he
      obtain ⟨hlt, rfl⟩ := (shoppingEntryOf_some_iff db kv e).mp hkv
      obtain ⟨hcne, hval⟩ := neededOf_mem_val _ kv hkvmem
      exact ⟨rfl, hval⟩
    · intro iid hcne hlt
      have hl : lookupQ (neededOf (requiredRows db
          ((incompleteSlots db plan).map (·.recipe_id)))) iid
          = some ((contribsL (requiredRows db
            ((incompleteSlots db plan).map (·.recipe_id))) iid).sum) := by
        rw [neededOf_lookup, if_neg hcne]
      have hmem := lookupQ_some_mem _ _ _ hl
      have hsome : shoppingEntryOf db (iid, (contribsL (requiredRows db
          ((incompleteSlots db plan).map (·.recipe_id))) iid).sum) ≠ none := by
        unfold shoppingEntryOf
        dsimp only
        rw [if_pos hlt]
        exact Option.some_ne_none _
      cases he : shoppingEntryOf db (iid, (contribsL (requiredRows db
          ((incompleteSlots db plan).map (·.recipe_id))) iid).sum) with
      | none => exact absurd he hsome
      | some e =>
        refine ⟨e, ?_, ?_⟩
        · unfold get_shopping_list
          rw [hplan]
          exact (shoppingListFor_mem db plan e).mpr ⟨_, hmem, he⟩
        · obtain ⟨_, rfl⟩ := (shoppingEntryOf_some_iff db _ e).mp he
          rfl
  · unfold get_shopping_list
    cases hplan : db.plans.find? (fun p => p.week_start == ws) with
    | none => exact List.nodup_nil
    | some plan => exact shoppingListFor_ids_nodup db plan

/-! C3 and C5 — greedy-selection lemmas. -/

theorem findConsume_cons (a : RecipeScore) (as : List RecipeScore) (p : RecipeScore → Bool) :
    findConsume (a :: as) p = if p a then (some a, as) else findConsume as p := rfl

theorem findConsume_some (l : List RecipeScore) (p : RecipeScore → Bool)
    (x : RecipeScore) (rest : List RecipeScore)
    (h : findConsume l p = (some x, rest)) :
    ∃ pre, l = pre ++ x :: rest ∧ p x = true ∧ ∀ y ∈ pre, p y = false := by
  induction l generalizing rest with
  | nil => exact absurd (congrArg Prod.fst h) (by simp [findConsume])
  | cons a as ih =>
    rw [findConsume_cons] at h
    by_cases hpa : p a = true
    · rw [if_pos hpa] at h
      have h1 : some a = some x := congrArg Prod.fst h
      have h2 : as = rest := congrArg Prod.snd h
      obtain rfl := Option.some_injective _ h1
      subst h2
      exact ⟨[], rfl, hpa, fun y hy => absurd hy (List.not_mem_nil y)⟩
    · rw [if_neg hpa] at h
      obtain ⟨pre, hpre, hx, hall⟩ := ih rest h
      refine ⟨a :: pre, by rw [List.cons_append, hpre], hx, ?_⟩
      intro y hy
      rcases List.mem_cons.mp hy with rfl | hy
      · exact Bool.eq_false_iff.mpr hpa
      · exact hall y hy

theorem findConsume_none (l : List RecipeScore) (p : RecipeScore → Bool)
    (rest : List RecipeScore) (h : findConsume l p = (none, rest)) :
    rest = [] ∧ ∀ y ∈ l, p y = false := by
  induction l with
  | nil =>
    have h2 : ([] : List RecipeScore) = rest := congrArg Prod.snd h
    exact ⟨h2.symm, fun y hy => absurd hy (List.not_mem_nil y)⟩
  | cons a as ih =>
    rw [findConsume_cons] at h
    by_cases hpa : p a = true
    · rw [if_pos hpa] at h
      exact absurd (congrArg Prod.fst h) (by simp)
    · rw [if_neg hpa] at h
      obtain ⟨hrest, hall⟩ := ih h
      refine ⟨hrest, ?_⟩
      intro y hy
      rcases List.mem_cons.mp hy with rfl | hy
      · exact Bool.eq_false_iff.mpr hpa
      · exact hall y hy

theorem lookupDay_cons (d : ℕ) (cu : String) (rest : List (ℕ × String)) (d' : ℕ) :
    lookupDay ((d, cu) :: rest) d' = if d == d' then some cu else lookupDay rest d' := by
  cases h : (d == d') <;> simp [lookupDay, List.find?, h]

theorem dayLunchCuisine_append_right (l1 l2 : List (RecipeScore × ℕ × String)) (d : ℕ)
    (h : ∀ e ∈ l2, e.2.1 ≠ d) :
    dayLunchCuisine (l1 ++ l2) d = dayLunchCuisine l1 d := by
  unfold dayLunchCuisine
  rw [List.find?_append]
  have h2 : l2.find? (fun e => e.2.1 == d && e.2.2 == "lunch") = none := by
    rw [List.find?_eq_none]
    intro e he
    simp [h e he]
  rw [h2]
  cases l1.find? (fun e => e.2.1 == d && e.2.2 == "lunch") <;> rfl

theorem dayLunchCuisine_append_left (l1 l2 : List (RecipeScore × ℕ × String)) (d : ℕ)
    (h : ∀ e ∈ l1, e.2.1 ≠ d) :
    dayLunchCuisine (l1 ++ l2) d = dayLunchCuisine l2 d := by
  unfold dayLunchCuisine
  rw [List.find?_append]
  have h1 : l1.find? (fun e => e.2.1 == d && e.2.2 == "lunch") = none := by
    rw [List.find?_eq_none]
    intro e he
    simp [h e he]
  rw [h1]
  rfl

set_option maxHeartbeats 2000000 in
theorem assignDay_spec (day : ℕ) (st : SelState)
    (hcd : lookupDay st.cuisines day = none) :
    ∃ new consumed,
      (assignDay day st).selected = st.selected ++ new ∧
      st.cursor = consumed ++ (assignDay day st).cursor ∧
      (new.map (fun e => e.1)).Sublist consumed ∧
      (∀ e ∈ new, e.2.1 = day ∧ (e.2.2 = "lunch" ∨ e.2.2 = "dinner")
        ∧ e.1.recipe_id ∉ st.used ∧ e.1.recipe_id ∈ (assignDay day st).used) ∧
      List.Pairwise (fun a b => a.2.2 ≠ b.2.2) new ∧
      List.Pairwise (fun a b => a.1.recipe_id ≠ b.1.recipe_id) new ∧
      (∀ u ∈ st.used, u ∈ (assignDay day st).used) ∧
      (∀ d', d' ≠ day →
        lookupDay (assignDay day st).cuisines d' = lookupDay st.cuisines d') ∧
      (∀ e ∈ new, e.2.2 = "dinner" → fits_meal_type e.1.category "dinner" = true ∧
        e.1.cuisine ≠ dayLunchCuisine new day) := by
  cases hL : findConsume st.cursor (lunchPred st.used) with
  | mk lres c1 =>
    cases lres with
    | none =>
      obtain ⟨rfl, hallL⟩ := findConsume_none _ _ _ hL
      have hA : assignDay day st = { st with cursor := [] } := by
        unfold assignDay
        rw [hL]
        rfl
      refine ⟨[], st.cursor, ?_, ?_, ?_, ?_, ?_, ?_, ?_, ?_, ?_⟩
      · rw [hA]
        simp
      · rw [hA]
        simp
      · simp
      · intro e he
        cases he
      · exact List.Pairwise.nil
      · exact List.Pairwise.nil
      · intro u hu
        rw [hA]
        exact hu
      · intro d' hd'
        rw [hA]
      · intro e he
        cases he
    | some lr =>
      obtain ⟨pre1, hpre1, hplr, hallpre1⟩ := findConsume_some _ _ _ _ hL
      have hlr : lr.recipe_id ∉ st.used ∧ fits_meal_type lr.category "lunch" = true := by
        have := hplr
        unfold lunchPred at this
        simp only [Bool.and_eq_true, Bool.not_eq_true'] at this
        refine ⟨?_, this.2⟩
        intro hmem
        rw [List.contains_eq_any_beq] at this
        have : st.used.any (fun x => lr.recipe_id == x) = true :=
          List.any_eq_true.mpr ⟨lr.recipe_id, hmem, by simp⟩
        simp_all
      cases hc : lr.cuisine with
      | some cu =>
        cases hD : findConsume c1
            (dinnerPred (lr.recipe_id :: st.used)
              (lookupDay ((day, cu) :: st.cuisines) day)) with
        | mk dres c2 =>
          cases dres with
          | none =>
            obtain ⟨rfl, hallD⟩ := findConsume_none _ _ _ hD
            have hA : assignDay day st =
                { cursor := []
                  used := lr.recipe_id :: st.used
                  cuisines := (day, cu) :: st.cuisines
                  selected := st.selected ++ [(lr, day, "lunch")] } := by
              unfold assignDay
              rw [hL]
              dsimp only
              rw [hc]
              dsimp only
              rw [hD]
            refine ⟨[(lr, day, "lunch")], st.cursor, ?_, ?_, ?_, ?_, ?_, ?_, ?_, ?_, ?_⟩
            · rw [hA]
            · rw [hA]
              simp
            · simp only [List.map_cons, List.map_nil]
              exact List.singleton_sublist.mpr (by rw [hpre1]; simp)
            · intro e he
              rcases List.mem_cons.mp he with rfl | he
              · exact ⟨rfl, Or.inl rfl, hlr.1, by rw [hA]; exact List.mem_cons_self _ _⟩
              · cases he
            · simp
            · simp
            · intro u hu
              rw [hA]
              exact List.mem_cons_of_mem _ hu
            · intro d' hd'
              rw [hA]
              show lookupDay ((day, cu) :: st.cuisines) d' = _
              rw [lookupDay_cons, if_neg (by simp [Ne.symm hd'])]
            · intro e he hm
              rcases List.mem_cons.mp he with rfl | he
              · exact absurd hm (by simp)
              · cases he
          | some dr =>
            obtain ⟨pre2, hpre2, hpdr, hallpre2⟩ := findConsume_some _ _ _ _ hD
            have hlc : lookupDay ((day, cu) :: st.cuisines) day = some cu := by
              rw [lookupDay_cons, if_pos (by simp)]
            have hdr : dr.recipe_id ∉ lr.recipe_id :: st.used
                ∧ fits_meal_type dr.category "dinner" = true
                ∧ dr.cuisine ≠ some cu := by
              have := hpdr
              unfold dinnerPred at this
              rw [hlc] at this
              simp only [Bool.and_eq_true, Bool.not_eq_true', bne_iff_ne] at this
              refine ⟨?_, this.1.2, this.2⟩
              intro hmem
              rw [List.contains_eq_any_beq] at this
              have : (lr.recipe_id :: st.used).any (fun x => dr.recipe_id == x) = true :=
                List.any_eq_true.mpr ⟨dr.recipe_id, hmem, by simp⟩
              simp_all
            have hA : assignDay day st =
                { cursor := c2
                  used := dr.recipe_id :: lr.recipe_id :: st.used
                  cuisines := (day, cu) :: st.cuisines
                  selected := st.selected ++ [(lr, day, "lunch")] ++ [(dr, day, "dinner")] } := by
              unfold assignDay
              rw [hL]
              dsimp only
              rw [hc]
              dsimp only
              rw [hD]
            have hnewLunch : dayLunchCuisine [(lr, day, "lunch"), (dr, day, "dinner")] day
                = some cu := by
              unfold dayLunchCuisine
              rw [show ([(lr, day, "lunch"), (dr, day, "dinner")].find?
                  (fun e => e.2.1 == day && e.2.2 == "lunch")) = some (lr, day, "lunch") by
                simp [List.find?]]
              exact hc
            refine ⟨[(lr, day, "lunch"), (dr, day, "dinner")],
              pre1 ++ lr :: (pre2 ++ [dr]), ?_, ?_, ?_, ?_, ?_, ?_, ?_, ?_, ?_⟩
            · rw [hA]
              simp
            · rw [hA]
              show st.cursor = (pre1 ++ lr :: (pre2 ++ [dr])) ++ c2
              rw [hpre1, hpre2]
              simp
            · show [lr, dr].Sublist (pre1 ++ lr :: (pre2 ++ [dr]))
              have h1 : [dr].Sublist (pre2 ++ [dr]) := by
                simpa using (List.nil_sublist pre2).append (List.Sublist.refl [dr])
              have h2 : (lr :: [dr]).Sublist (lr :: (pre2 ++ [dr])) := h1.cons₂ lr
              simpa using (List.nil_sublist pre1).append h2
            · intro e he
              rcases List.mem_cons.mp he with rfl | he
              · exact ⟨rfl, Or.inl rfl, hlr.1, by rw [hA]; simp⟩
              rcases List.mem_cons.mp he with rfl | he
              · refine ⟨rfl, Or.inr rfl, ?_, by rw [hA]; simp⟩
                intro hmem
                exact hdr.1 (List.mem_cons_of_mem _ hmem)
              · cases he
            · refine List.Pairwise.cons ?_ (by simp)
              intro e he
              rcases List.mem_cons.mp he with rfl | he
              · simp
              · cases he
            · refine List.Pairwise.cons ?_ (by simp)
              intro e he
              rcases List.mem_cons.mp he with rfl | he
              · intro hh
                exact hdr.1 (hh ▸ List.mem_cons_self _ _)
              · cases he
            · intro u hu
              rw [hA]
              exact List.mem_cons_of_mem _ (List.mem_cons_of_mem _ hu)
            · intro d' hd'
              rw [hA]
              show lookupDay ((day, cu) :: st.cuisines) d' = _
              rw [lookupDay_cons, if_neg (by simp [Ne.symm hd'])]
            · intro e he hm
              rcases List.mem_cons.mp he with rfl | he
              · exact absurd hm (by simp)
              rcases List.mem_cons.mp he with rfl | he
              · rw [hnewLunch]
                exact ⟨hdr.2.1, hdr.2.2⟩
              · cases he
      | none =>
        cases hD : findConsume c1
            (dinnerPred (lr.recipe_id :: st.used) (lookupDay st.cuisines day)) with
        | mk dres c2 =>
          cases dres with
          | none =>
            obtain ⟨rfl, hallD⟩ := findConsume_none _ _ _ hD
            have hA : assignDay day st =
                { cursor := []
                  used := lr.recipe_id :: st.used
                  cuisines := st.cuisines
                  selected := st.selected ++ [(lr, day, "lunch")] } := by
              unfold assignDay
              rw [hL]
              dsimp only
              rw [hc]
              dsimp only
              rw [hD]
            refine ⟨[(lr, day, "lunch")], st.cursor, ?_, ?_, ?_, ?_, ?_, ?_, ?_, ?_, ?_⟩
            · rw [hA]
            · rw [hA]
              simp
            · simp only [List.map_cons, List.map_nil]
              exact List.singleton_sublist.mpr (by rw [hpre1]; simp)
            · intro e he
              rcases List.mem_cons.mp he with rfl | he
              · exact ⟨rfl, Or.inl rfl, hlr.1, by rw [hA]; exact List.mem_cons_self _ _⟩
              · cases he
            · simp
            · simp
            · intro u hu
              rw [hA]
              exact List.mem_cons_of_mem _ hu
            · intro d' hd'
              rw [hA]
            · intro e he hm
              rcases List.mem_cons.mp he with rfl | he
              · exact absurd hm (by simp)
              · cases he
          | some dr =>
            obtain ⟨pre2, hpre2, hpdr, hallpre2⟩ := findConsume_some _ _ _ _ hD
            have hdr : dr.recipe_id ∉ lr.recipe_id :: st.used
                ∧ fits_meal_type dr.category "dinner" = true
                ∧ dr.cuisine ≠ none := by
              have := hpdr
              unfold dinnerPred at this
              rw [hcd] at this
              simp only [Bool.and_eq_true, Bool.not_eq_true', bne_iff_ne] at this
              refine ⟨?_, this.1.2, this.2⟩
              intro hmem
              rw [List.contains_eq_any_beq] at this
              have : (lr.recipe_id :: st.used).any (fun x => dr.recipe_id == x) = true :=
                List.any_eq_true.mpr ⟨dr.recipe_id, hmem, by simp⟩
              simp_all
            have hA : assignDay day st =
                { cursor := c2
                  used := dr.recipe_id :: lr.recipe_id :: st.used
                  cuisines := st.cuisines
                  selected := st.selected ++ [(lr, day, "lunch")] ++ [(dr, day, "dinner")] } := by
              unfold assignDay
              rw [hL]
              dsimp only
              rw [hc]
              dsimp only
              rw [hD]
            have hnewLunch : dayLunchCuisine [(lr, day, "lunch"), (dr, day, "dinner")] day
                = none := by
              unfold dayLunchCuisine
              rw [show ([(lr, day, "lunch"), (dr, day, "dinner")].find?
                  (fun e => e.2.1 == day && e.2.2 == "lunch")) = some (lr, day, "lunch") by
                simp [List.find?]]
              exact hc
            refine ⟨[(lr, day, "lunch"), (dr, day, "dinner")],
              pre1 ++ lr :: (pre2 ++ [dr]), ?_, ?_, ?_, ?_, ?_, ?_, ?_, ?_, ?_⟩
            · rw [hA]
              simp
            · rw [hA]
              show st.cursor = (pre1 ++ lr :: (pre2 ++ [dr])) ++ c2
              rw [hpre1, hpre2]
              simp
            · show [lr, dr].Sublist (pre1 ++ lr :: (pre2 ++ [dr]))
              have h1 : [dr].Sublist (pre2 ++ [dr]) := by
                simpa using (List.nil_sublist pre2).append (List.Sublist.refl [dr])
              have h2 : (lr :: [dr]).Sublist (lr :: (pre2 ++ [dr])) := h1.cons₂ lr
              simpa using (List.nil_sublist pre1).append h2
            · intro e he
              rcases List.mem_cons.mp he with rfl | he
              · exact ⟨rfl, Or.inl rfl, hlr.1, by rw [hA]; simp⟩
              rcases List.mem_cons.mp he with rfl | he
              · refine ⟨rfl, Or.inr rfl, ?_, by rw [hA]; simp⟩
                intro hmem
                exact hdr.1 (List.mem_cons_of_mem _ hmem)
              · cases he
            · refine List.Pairwise.cons ?_ (by simp)
              intro e he
              rcases List.mem_cons.mp he with rfl | he
              · simp
              · cases he
            · refine List.Pairwise.cons ?_ (by simp)
              intro e he
              rcases List.mem_cons.mp he with rfl | he
              · intro hh
                exact hdr.1 (hh ▸ List.mem_cons_self _ _)
              · cases he
            · intro u hu
              rw [hA]
              exact List.mem_cons_of_mem _ (List.mem_cons_of_mem _ hu)
            · intro d' hd'
              rw [hA]
            · intro e he hm
              rcases List.mem_cons.mp he with rfl | he
              · exact absurd hm (by simp)
              rcases List.mem_cons.mp he with rfl | he
              · rw [hnewLunch]
                exact ⟨hdr.2.1, hdr.2.2⟩
              · cases he

theorem runDays_spec (ds : List ℕ) (st : SelState)
    (hnd : ds.Nodup)
    (hcs : ∀ d ∈ ds, lookupDay st.cuisines d = none) :
    ∃ new,
      (runDays ds st).selected = st.selected ++ new ∧
      (∀ e ∈ new, e.2.1 ∈ ds ∧ (e.2.2 = "lunch" ∨ e.2.2 = "dinner")
        ∧ e.1 ∈ st.cursor ∧ e.1.recipe_id ∉ st.used) ∧
      (new.map (fun e => e.1)).Sublist st.cursor ∧
      List.Pairwise (fun a b => (a.2.1, a.2.2) ≠ (b.2.1, b.2.2)) new ∧
      List.Pairwise (fun a b => a.1.recipe_id ≠ b.1.recipe_id) new ∧
      (∀ e ∈ new, e.2.2 = "dinner" → fits_meal_type e.1.category "dinner" = true ∧
        e.1.cuisine ≠ dayLunchCuisine new e.2.1) := by
  induction ds generalizing st with
  | nil =>
    refine ⟨[], by simp [runDays], ?_, by simp, List.Pairwise.nil, List.Pairwise.nil, ?_⟩
    · intro e he
      cases he
    · intro e he
      cases he
  | cons d ds ih =>
    obtain ⟨hd_nd, hds_nd⟩ := List.nodup_cons.mp hnd
    have hcd : lookupDay st.cuisines d = none := hcs d (List.mem_cons_self _ _)
    obtain ⟨newd, consumed, hsel, hcur, hsub, hmem, hpm, hpi, husedmono, hcufr, hdin⟩ :=
      assignDay_spec d st hcd
    have hcs' : ∀ d' ∈ ds, lookupDay (assignDay d st).cuisines d' = none := by
      intro d' hd'
      rw [hcufr d' (fun hh => hd_nd (hh ▸ hd'))]
      exact hcs d' (List.mem_cons_of_mem _ hd')
    obtain ⟨newr, hsel', hmem', hsub', hpm', hpi', hdin'⟩ := ih (assignDay d st) hds_nd hcs'
    refine ⟨newd ++ newr, ?_, ?_, ?_, ?_, ?_, ?_⟩
    · show (runDays ds (assignDay d st)).selected = st.selected ++ (newd ++ newr)
      rw [hsel', hsel, List.append_assoc]
    · intro e he
      rcases List.mem_append.mp he with he | he
      · obtain ⟨hday, hmeal, hnotused, hused'⟩ := hmem e he
        refine ⟨hday ▸ List.mem_cons_self _ _, hmeal, ?_, hnotused⟩
        have h1 : e.1 ∈ consumed := hsub.subset (List.mem_map_of_mem _ he)
        rw [hcur]
        exact List.mem_append_left _ h1
      · obtain ⟨hday, hmeal, hcur', hnu'⟩ := hmem' e he
        refine ⟨List.mem_cons_of_mem _ hday, hmeal, ?_, ?_⟩
        · rw [hcur]
          exact List.mem_append_right _ hcur'
        · intro hmem0
          exact hnu' (husedmono _ hmem0)
    · rw [List.map_append, hcur]
      exact hsub.append hsub'
    · rw [List.pairwise_append]
      refine ⟨hpm.imp (fun h heq => h (congrArg Prod.snd heq)), hpm', ?_⟩
      intro a ha b hb heq
      have hda := (hmem a ha).1
      have hdb := (hmem' b hb).1
      have hd12 : a.2.1 = b.2.1 := congrArg Prod.fst heq
      exact hd_nd (by rw [← hda, hd12]; exact hdb)
    · rw [List.pairwise_append]
      refine ⟨hpi, hpi', ?_⟩
      intro a ha b hb hh
      exact (hmem' b hb).2.2.2 (hh ▸ (hmem a ha).2.2.2)
    · intro e he hm
      rcases List.mem_append.mp he with he | he
      · obtain ⟨hfits, hcne⟩ := hdin e he hm
        have hday := (hmem e he).1
        refine ⟨hfits, ?_⟩
        rw [hday, dayLunchCuisine_append_right _ _ _ ?_]
        · exact hday ▸ hcne
        · intro e' he' hh
          exact hd_nd (hh ▸ (hmem' e' he').1)
      · obtain ⟨hfits, hcne⟩ := hdin' e he hm
        refine ⟨hfits, ?_⟩
        rw [dayLunchCuisine_append_left newd newr e.2.1 ?_]
        · exact hcne
        · intro e' he' hh
          have h1 := (hmem e' he').1
          have h2 := (hmem' e he).1
          exact hd_nd (by rw [← h1, hh]; exact h2)

theorem selectSlots_spec (scored : List RecipeScore) :
    ((selectSlots scored).map (fun e => e.1)).Sublist scored ∧
    (∀ e ∈ selectSlots scored, e.2.1 < 7 ∧ (e.2.2 = "lunch" ∨ e.2.2 = "dinner")) ∧
    List.Pairwise (fun a b => (a.2.1, a.2.2) ≠ (b.2.1, b.2.2)) (selectSlots scored) ∧
    List.Pairwise (fun a b => a.1.recipe_id ≠ b.1.recipe_id) (selectSlots scored) ∧
    (∀ e ∈ selectSlots scored, e.2.2 = "dinner" →
      fits_meal_type e.1.category "dinner" = true ∧
      e.1.cuisine ≠ dayLunchCuisine (selectSlots scored) e.2.1) := by
  obtain ⟨new, hsel, hmem, hsub, hpm, hpi, hdin⟩ :=
    runDays_spec (List.range 7) ⟨scored, [], [], []⟩ (List.nodup_range 7)
      (fun d _ => rfl)
  have hss : selectSlots scored = new := by
    unfold selectSlots
    rw [hsel]
    rfl
  rw [hss]
  refine ⟨hsub, ?_, hpm, hpi, hdin⟩
  intro e he
  obtain ⟨hd, hmeal, _, _⟩ := hmem e he
  exact ⟨List.mem_range.mp hd, hmeal⟩

/-- C5: the dinner slot of each day is filled only by a candidate that fits
the dinner meal type, was not used before, and whose cuisine differs from
the recorded lunch cuisine of the day; the scan is a single shared
forward-only cursor (`Iterator::find`): a successful scan returns the first
match and the strict suffix after it, an unsuccessful scan exhausts the
iterator (so the slot stays unfilled, with no fallback and no revisiting),
and consequently the selected recipes form an in-order sublist of the
score-sorted candidate list with pairwise-distinct recipe ids. -/
theorem C5_dinner_selection_discipline (scored : List RecipeScore) :
    (∀ (l : List RecipeScore) (p : RecipeScore → Bool) (x : RecipeScore)
      (rest : List RecipeScore),
      findConsume l p = (some x, rest) →
      ∃ pre, l = pre ++ x :: rest ∧ p x = true ∧ ∀ y ∈ pre, p y = false) ∧
    (∀ (l : List RecipeScore) (p : RecipeScore → Bool) (rest : List RecipeScore),
      findConsume l p = (none, rest) → rest = [] ∧ ∀ y ∈ l, p y = false) ∧
    ((selectSlots scored).map (fun e => e.1)).Sublist scored ∧
    List.Pairwise (fun a b => a.1.recipe_id ≠ b.1.recipe_id) (selectSlots scored) ∧
    (∀ e ∈ selectSlots scored, e.2.2 = "dinner" →
      fits_meal_type e.1.category "dinner" = true ∧
      e.1.cuisine ≠ dayLunchCuisine (selectSlots scored) e.2.1) :=
  ⟨findConsume_some, findConsume_none, (selectSlots_spec scored).1,
    (selectSlots_spec scored).2.2.2.1, (selectSlots_spec scored).2.2.2.2⟩

theorem scoreAllFold_not_recent (household_size now : ℤ) (db0 : Db) :
    ∀ (l : List RecipeRow) (acc : List RecipeScore × Db),
      acc.2.history = db0.history →
      (∀ rs ∈ acc.1, rs.recipe_id ∉ recentRecipeIds db0 now) →
      ∀ rs ∈ (l.foldl
          (fun acc recipe =>
            if (recentRecipeIds acc.2 now).contains recipe.id then acc
            else
              let r := scoreCandidate acc.2 household_size now recipe
              (acc.1 ++ [r.1], r.2)) acc).1,
        rs.recipe_id ∉ recentRecipeIds db0 now := by
  intro l
  induction l with
  | nil => intro acc _ hacc; exact hacc
  | cons recipe rest ih =>
    intro acc hhist hacc
    rw [List.foldl_cons]
    have hsame : recentRecipeIds acc.2 now = recentRecipeIds db0 now := by
      unfold recentRecipeIds
      rw [hhist]
    by_cases hrec : (recentRecipeIds acc.2 now).contains recipe.id = true
    · rw [if_pos hrec]
      exact ih acc hhist hacc
    · rw [if_neg hrec]
      dsimp only
      refine ih _ ?_ ?_
      · show (scoreCandidate acc.2 household_size now recipe).2.history = db0.history
        have h1 : (scoreCandidate acc.2 household_size now recipe).2 =
            (score_recipe_for_user acc.2 recipe.id).2 := rfl
        rw [h1, (score_recipe_for_user_frame acc.2 recipe.id).2.2.2.2.2.1]
        exact hhist
      · intro rs hrs
        rcases List.mem_append.mp hrs with hrs | hrs
        · exact hacc rs hrs
        · have hrs' : rs = (scoreCandidate acc.2 household_size now recipe).1 :=
            List.mem_singleton.mp hrs
          have hid : (scoreCandidate acc.2 household_size now recipe).1.recipe_id
              = recipe.id := rfl
          rw [hrs', hid, ← hsame]
          intro hmem
          exact hrec (by simpa using hmem)

theorem scoreAll_not_recent (db : Db) (household_size now : ℤ) :
    ∀ rs ∈ (scoreAll db household_size now).1,
      rs.recipe_id ∉ recentRecipeIds db now := by
  intro rs hrs
  unfold scoreAll at hrs
  exact scoreAllFold_not_recent household_size now db _ ([], db) rfl
    (fun rs h => absurd h (List.not_mem_nil rs)) rs hrs

set_option maxHeartbeats 1000000 in
theorem gwp_slots (db : Db) (household_size week_start now : ℤ) :
    ∃ pid : ℤ,
      (generate_week_plan db household_size week_start now).2.1 =
        (selectSlots ((scoreAll db household_size now).1.mergeSort
            (fun a b => b.total_score ≤ a.total_score))).map
          (fun e =>
            { meal_plan_id := pid
              recipe_id := e.1.recipe_id
              day_of_week := (e.2.1 : ℤ)
              meal_type := e.2.2
              is_completed := false }) ∧
      (generate_week_plan db household_size week_start now).1.id = pid := by
  unfold generate_week_plan
  dsimp only
  exact ⟨_, rfl, rfl⟩

/-- C3: every slot produced by `generate_week_plan` belongs to the new plan,
no two slots of the plan share the same (day_of_week, meal_type) pair, no
slot carries a recently-cooked recipe (cooked within the last 14 days), and
the hard exclusion happens before scoring: the scored candidate list itself
contains no recently-cooked recipe. -/
theorem C3_no_duplicate_slots_no_recent (db : Db)
    (household_size week_start now : ℤ) :
    (∀ s ∈ (generate_week_plan db household_size week_start now).2.1,
      s.meal_plan_id = (generate_week_plan db household_size week_start now).1.id) ∧
    List.Pairwise
      (fun a b => ¬(a.day_of_week = b.day_of_week ∧ a.meal_type = b.meal_type))
      (generate_week_plan db household_size week_start now).2.1 ∧
    (∀ s ∈ (generate_week_plan db household_size week_start now).2.1,
      s.recipe_id ∉ recentRecipeIds db now) ∧
    (∀ rs ∈ (scoreAll db household_size now).1,
      rs.recipe_id ∉ recentRecipeIds db now) := by
  obtain ⟨pid, hslots, hpid⟩ := gwp_slots db household_size week_start now
  refine ⟨?_, ?_, ?_, scoreAll_not_recent db household_size now⟩
  · intro s hs
    rw [hslots] at hs
    obtain ⟨e, he, rfl⟩ := List.mem_map.mp hs
    show pid = (generate_week_plan db household_size week_start now).1.id
    exact hpid.symm
  · rw [hslots]
    refine List.Pairwise.map _ ?_ (selectSlots_spec _).2.2.1
    intro a b hab hcon
    obtain ⟨hd, hm⟩ := hcon
    have hd' : ((a.2.1 : ℤ)) = ((b.2.1 : ℤ)) := hd
    have hm' : a.2.2 = b.2.2 := hm
    exact hab (by rw [Prod.mk.injEq]; exact ⟨Nat.cast_inj.mp hd', hm'⟩)
  · intro s hs
    rw [hslots] at hs
    obtain ⟨e, he, rfl⟩ := List.mem_map.mp hs
    show e.1.recipe_id ∉ recentRecipeIds db now
    have h1 : e.1 ∈ (selectSlots ((scoreAll db household_size now).1.mergeSort
        (fun a b => b.total_score ≤ a.total_score))).map (fun e => e.1) :=
      List.mem_map_of_mem _ he
    have h2 := (selectSlots_spec _).1.subset h1
    have h3 : e.1 ∈ (scoreAll db household_size now).1 :=
      (List.mergeSort_perm _ _).subset h2
    exact scoreAll_not_recent db household_size now e.1 h3

end Cookest